import Mathlib

/-!
Verification development for the "Atrapa las Almas" game core.

The JavaScript sources are embedded shallowly:

* numeric values are modelled as exact rationals (`ℚ`); the only places the
  source takes a square root (`THREE.Vector3.distanceTo`, the radial clamp in
  `Soul.update`) are modelled over `ℝ` via `Real.sqrt`, with a decidable
  square-free equivalent (`distLe`) used for the branch conditions so the
  state-transition functions stay executable;
* `SoulManager.activeSouls` (a JS `Map` keyed by the soul id, iterated in
  insertion order) is embedded as a list of entries whose ids are pairwise
  distinct;
* calls to `Math.random` (spawn positions, re-rolled motion parameters) are
  passed in as explicit oracle arguments, so every theorem quantifies over
  all possible random draws;
* rendering-only state (meshes, materials, glow/particle animation) carries
  no gameplay information and is not part of the embedded state.
-/

namespace Atrapa

section RatReducible

/- Core marks the rational arithmetic operations `@[irreducible]`, which
blocks kernel evaluation in `decide`; restore default reducibility so
concrete runs of the embedded transition functions evaluate. -/
attribute [local semireducible] Rat.add Rat.mul Rat.inv Rat.sub

/-- A snapshot of a `THREE.Vector3` with exact rational coordinates. -/
structure Vec3 where
  x : ℚ
  y : ℚ
  z : ℚ
deriving DecidableEq, Repr

/-- Squared Euclidean distance between two vectors. -/
def dist2 (p q : Vec3) : ℚ :=
  (p.x - q.x) ^ 2 + (p.y - q.y) ^ 2 + (p.z - q.z) ^ 2

/-- `THREE.Vector3.distanceTo`: the Euclidean distance, as a real number. -/
noncomputable def distanceTo (p q : Vec3) : ℝ :=
  Real.sqrt ((dist2 p q : ℚ) : ℝ)

/-- Decidable form of the source's test `pos1.distanceTo(pos2) <= c`
(`CollisionDetector.calculateDistance` followed by a `<=` comparison).
Squaring both sides is exact because the squared distance is nonnegative;
`distLe_eq_true_iff` proves the equivalence with the real-valued test. -/
def distLe (p q : Vec3) (c : ℚ) : Bool :=
  decide (0 ≤ c ∧ dist2 p q ≤ c ^ 2)

theorem dist2_nonneg (p q : Vec3) : 0 ≤ dist2 p q := by
  have hx : (0 : ℚ) ≤ (p.x - q.x) ^ 2 := sq_nonneg _
  have hy : (0 : ℚ) ≤ (p.y - q.y) ^ 2 := sq_nonneg _
  have hz : (0 : ℚ) ≤ (p.z - q.z) ^ 2 := sq_nonneg _
  unfold dist2
  linarith

theorem distanceTo_nonneg (p q : Vec3) : 0 ≤ distanceTo p q :=
  Real.sqrt_nonneg _

/-- The decidable square-free test agrees with the source's real-valued
distance comparison. -/
theorem distLe_eq_true_iff (p q : Vec3) (c : ℚ) :
    distLe p q c = true ↔ distanceTo p q ≤ (c : ℝ) := by
  unfold distLe distanceTo
  rw [Real.sqrt_le_iff]
  simp only [decide_eq_true_eq]
  constructor
  · rintro ⟨h0, h2⟩
    refine ⟨by exact_mod_cast h0, ?_⟩
    exact_mod_cast h2
  · rintro ⟨h0, h2⟩
    refine ⟨by exact_mod_cast h0, ?_⟩
    exact_mod_cast h2

/-- Monotonicity of the distance test in the radius. -/
theorem distLe_mono {p q : Vec3} {c c' : ℚ} (hcc : c ≤ c')
    (h : distLe p q c = true) : distLe p q c' = true := by
  unfold distLe at h ⊢
  simp only [decide_eq_true_eq] at h ⊢
  obtain ⟨h0, h2⟩ := h
  refine ⟨le_trans h0 hcc, le_trans h2 ?_⟩
  have := sq_nonneg c
  nlinarith

/-- A soul entity as tracked by the `SoulManager` (`Soul.js`).  The embedded
fields are the gameplay-relevant ones: `id` (the monotone counter behind the
JS id string `soul-${n}`), the current `position`, the collected flag and the
decaying `collectionAnimation` scalar (the spec's `collectionProgress`).
Rendering-only fields (mesh, materials, glow, particles) and the procedural
motion parameters are not part of this record; the free-float motion model is
verified separately on `FreeSoul` below. -/
structure Soul where
  id : ℕ
  position : Vec3
  isCollected : Bool
  collectionAnimation : ℚ
deriving DecidableEq, Repr

namespace Soul

/-- `Soul.getCollisionRadius` (`Soul.js`, line 450): fixed `0.5`. -/
def collisionRadius : ℚ := 1 / 2

/-- `Soul.startCollection` (`Soul.js`, lines 330-342): a no-op when the soul
is already collected, otherwise flips `isCollected` and sets
`collectionAnimation = 1.0`.  (The emissive-intensity bump is visual only.) -/
def startCollection (s : Soul) : Soul :=
  if s.isCollected then s
  else { s with isCollected := true, collectionAnimation := 1 }

/-- `Soul.updateCollectionAnimation` (`Soul.js`, lines 348-354): decays
`collectionAnimation` by `deltaTime * 4.0` and clamps at `0`.  The remaining
body of the JS function only derives mesh scale/opacity/offset from the
scalar and is not gameplay state. -/
def updateCollectionAnimation (s : Soul) (dt : ℚ) : Soul :=
  let a := s.collectionAnimation - dt * 4
  if a ≤ 0 then { s with collectionAnimation := 0 }
  else { s with collectionAnimation := a }

/-- `Soul.isCollectionComplete` (`Soul.js`, lines 409-411). -/
def isCollectionComplete (s : Soul) : Bool :=
  s.isCollected && decide (s.collectionAnimation ≤ 0)

/-- `Soul.update` (`Soul.js`, lines 199-289): first the collection animation
is advanced when `collectionAnimation > 0` (lines 203-205); if the soul is
collected the free-float branch is skipped (line 208); otherwise the
free-float branch re-derives `position`.  That branch (lines 210-264) is a
function of trigonometric phases and fresh `Math.random` draws; its exact
real-valued form is embedded as `FreeSoul.update` below and verified there
(claim C8), so at this level the resulting position is an oracle argument
`newPos` — no manager-level claim depends on its value.  The mesh existence
guard (line 200) is dropped: every soul held by the manager owns a mesh. -/
def update (s : Soul) (dt : ℚ) (newPos : Vec3) : Soul :=
  let s := if 0 < s.collectionAnimation then updateCollectionAnimation s dt else s
  if s.isCollected then s else { s with position := newPos }

theorem update_id (s : Soul) (dt : ℚ) (newPos : Vec3) :
    (update s dt newPos).id = s.id := by
  unfold update updateCollectionAnimation
  dsimp only
  repeat' split
  all_goals rfl

theorem update_isCollected (s : Soul) (dt : ℚ) (newPos : Vec3) :
    (update s dt newPos).isCollected = s.isCollected := by
  unfold update updateCollectionAnimation
  dsimp only
  repeat' split
  all_goals rfl

/-- The collection scalar never increases across a frame update (`dt ≥ 0`). -/
theorem collectionAnimation_update_le (s : Soul) (dt : ℚ) (hdt : 0 ≤ dt)
    (newPos : Vec3) :
    (update s dt newPos).collectionAnimation ≤ s.collectionAnimation := by
  unfold update updateCollectionAnimation
  dsimp only
  repeat' split
  all_goals (try dsimp only)
  all_goals linarith

/-- The collection scalar stays nonnegative across a frame update. -/
theorem collectionAnimation_update_nonneg (s : Soul) (dt : ℚ)
    (h : 0 ≤ s.collectionAnimation) (newPos : Vec3) :
    0 ≤ (update s dt newPos).collectionAnimation := by
  unfold update updateCollectionAnimation
  dsimp only
  repeat' split
  all_goals (try dsimp only)
  all_goals linarith

end Soul

/-- Ids of a soul list are pairwise distinct.  `SoulManager.activeSouls` is a
JS `Map` keyed by the id and ids come from a monotone counter, so every state
the manager actually reaches satisfies this. -/
def idsNodup (souls : List Soul) : Prop :=
  (souls.map Soul.id).Nodup

instance (souls : List Soul) : Decidable (idsNodup souls) := by
  unfold idsNodup
  infer_instance

/-- `SoulManager` state (`SoulManager.js`, constructor lines 9-33).
`activeSouls` is the id-keyed `Map` in insertion order; `soulPool` is the
internal reuse array.  The `renderEngine`/`scene` handles are rendering-only
and omitted. -/
structure SoulManager where
  activeSouls : List Soul
  soulPool : List Soul
  nextSoulId : ℕ
  maxSouls : ℕ
  spawnRate : ℚ
  spawnTimer : ℚ
  spawnInterval : ℚ
  poolHits : ℕ
  poolMisses : ℕ
deriving DecidableEq, Repr

namespace SoulManager

/-- The constructor defaults (`SoulManager.js`, lines 14-30). -/
def mk0 : SoulManager :=
  { activeSouls := []
    soulPool := []
    nextSoulId := 0
    maxSouls := 15
    spawnRate := 2
    spawnTimer := 0
    spawnInterval := 1 / 2
    poolHits := 0
    poolMisses := 0 }

/-- `SoulManager.getSoulFromPool` (lines 148-153): pops the last pooled soul,
or yields `none` when the pool is empty. -/
def getSoulFromPool (pool : List Soul) : Option Soul × List Soul :=
  match pool.getLast? with
  | some s => (some s, pool.dropLast)
  | none => (none, pool)

/-- `SoulManager.returnSoulToPool` (lines 159-163): pushes the soul only while
the pool holds fewer than 20 souls; otherwise the soul is silently dropped. -/
def returnSoulToPool (pool : List Soul) (s : Soul) : List Soul :=
  if pool.length < 20 then pool ++ [s] else pool

/-- `SoulManager.spawnSoul` (lines 71-129).  Returns `none` at capacity.
Otherwise the spawn position comes from `generateSpawnPosition` — a uniform
`Math.random` draw over the field box — passed here as the oracle argument
`pos`.  Whether the soul object is reused from the pool or freshly
constructed, the new entry carries the fresh id, the spawned position,
`isCollected = false` and `collectionAnimation = 0` (lines 82-122); the two
branches differ only in the pool and hit/miss counters.  `Map.set` on a fresh
key appends in iteration order. -/
def spawnSoul (st : SoulManager) (pos : Vec3) : Option Soul × SoulManager :=
  if st.maxSouls ≤ st.activeSouls.length then (none, st)
  else
    let soul : Soul :=
      { id := st.nextSoulId, position := pos
        isCollected := false, collectionAnimation := 0 }
    match getSoulFromPool st.soulPool with
    | (some _, pool') =>
        (some soul,
          { st with
              activeSouls := st.activeSouls ++ [soul]
              soulPool := pool'
              nextSoulId := st.nextSoulId + 1
              poolHits := st.poolHits + 1 })
    | (none, pool') =>
        (some soul,
          { st with
              activeSouls := st.activeSouls ++ [soul]
              soulPool := pool'
              nextSoulId := st.nextSoulId + 1
              poolMisses := st.poolMisses + 1 })

/-- `SoulManager.removeSoul` (lines 169-183): drops the soul from the active
map and hands it to `returnSoulToPool` (scene removal is rendering-only). -/
def removeSoul (st : SoulManager) (soulId : ℕ) : SoulManager :=
  match st.activeSouls.find? (fun s => s.id = soulId) with
  | none => st
  | some soul =>
      { st with
          activeSouls := st.activeSouls.filter (fun s => ¬ s.id = soulId)
          soulPool := returnSoulToPool st.soulPool soul }

/-- `SoulManager.collectSoul` (lines 190-199): `false` for an unknown id or an
already-collecting soul; otherwise starts the collection animation on that
entry and reports `true`. -/
def collectSoul (st : List Soul) (soulId : ℕ) : Bool × List Soul :=
  match st.find? (fun s => s.id = soulId) with
  | none => (false, st)
  | some soul =>
      if soul.isCollected then (false, st)
      else (true, st.map (fun (s : Soul) => if s.id = soulId then s.startCollection else s))

/-- `SoulManager.update` (lines 39-65): advance the spawn timer; spawn at most
one soul when the timer passed the interval and the field is below capacity
(resetting the timer); run `Soul.update` on every active soul; then remove
every soul whose collection animation completed, returning each to the pool.
`posOracle` supplies, per soul id, the position the free-float branch of
`Soul.update` would derive this frame; `spawnPos` is the random spawn draw. -/
def update (st : SoulManager) (dt : ℚ) (spawnPos : Vec3)
    (posOracle : ℕ → Vec3) : SoulManager :=
  let st := { st with spawnTimer := st.spawnTimer + dt }
  let st :=
    if st.spawnInterval ≤ st.spawnTimer ∧ st.activeSouls.length < st.maxSouls then
      { (spawnSoul st spawnPos).2 with spawnTimer := 0 }
    else st
  let st :=
    { st with
        activeSouls := st.activeSouls.map (fun (s : Soul) => s.update dt (posOracle s.id)) }
  let toRemove :=
    ((st.activeSouls.filter (fun s => s.isCollectionComplete)).map Soul.id)
  toRemove.foldl removeSoul st

/-- `SoulManager.setMaxSouls` (lines 259-261). -/
def setMaxSouls (st : SoulManager) (m : ℕ) : SoulManager :=
  { st with maxSouls := max 1 m }

/-- `SoulManager.setSpawnRate` (lines 267-270): clamps the rate to `0.1` and
re-derives the interval. -/
def setSpawnRate (st : SoulManager) (rate : ℚ) : SoulManager :=
  let r := max (1 / 10) rate
  { st with spawnRate := r, spawnInterval := 1 / r }

/-- `SoulManager.clearAllSouls` (lines 295-306): every active soul goes
through `returnSoulToPool`, the active map is emptied and the spawn timer
reset. -/
def clearAllSouls (st : SoulManager) : SoulManager :=
  { st with
      activeSouls := []
      soulPool := st.activeSouls.foldl returnSoulToPool st.soulPool
      spawnTimer := 0 }

/-- `SoulManager.pauseSpawning` (lines 348-350): sets `spawnRate = 0` — and
nothing else; in particular `spawnInterval` keeps its previous value, and
neither `update` nor `spawnSoul` ever reads `spawnRate`. -/
def pauseSpawning (st : SoulManager) : SoulManager :=
  { st with spawnRate := 0 }

/-- `SoulManager.resumeSpawning` (lines 356-363). -/
def resumeSpawning (st : SoulManager) (rate : Option ℚ) : SoulManager :=
  match rate with
  | some r => setSpawnRate st r
  | none =>
      if st.spawnRate = 0 then { st with spawnRate := 2, spawnInterval := 1 / 2 }
      else st

end SoulManager

/-- The payload handed to every registered collision callback
(`CollisionDetector.checkCollisionsOptimized`, lines 263-269).  The JS object
also carries the soul reference and the scalar `distance`; both are derivable
from the recorded positions (`distanceTo playerPosition soulPosition`). -/
structure CollisionEvent where
  soulId : ℕ
  playerPosition : Vec3
  soulPosition : Vec3
deriving DecidableEq, Repr

/-- Result of one `checkCollisionsOptimized` call: the returned id list, the
collision events fired (each one is delivered to every registered callback by
`triggerCollisionCallbacks`, lines 142-150), and the soul registry after the
embedded `collectSoul` mutations. -/
structure CollisionResult where
  collectedSouls : List ℕ
  events : List CollisionEvent
  souls : List Soul
deriving DecidableEq, Repr

namespace CollisionDetector

/-- `CollisionDetector.broadPhaseDetection` (lines 217-232) with the default
`broadPhaseRadius = 5.0`: keeps the active, not-yet-collected souls within the
broad radius of the player. -/
def broadPhaseDetection (playerPos : Vec3) (souls : List Soul) : List Soul :=
  souls.filter (fun s => !s.isCollected && distLe playerPos s.position 5)

/-- The narrow-phase loop of `checkCollisionsOptimized` (lines 252-272): for
each broad-phase candidate, compare the distance against
`skullCollisionRadius + soul.getCollisionRadius()`; on a hit, try
`collectSoul` on the registry, and only when it reports `true` record the id
and fire a collision event. -/
def narrowPhase (playerPos : Vec3) (skullRadius : ℚ) :
    List Soul → List Soul → CollisionResult
  | [], souls => ⟨[], [], souls⟩
  | c :: cs, souls =>
      if distLe playerPos c.position (skullRadius + Soul.collisionRadius) then
        match SoulManager.collectSoul souls c.id with
        | (true, souls') =>
            let rest := narrowPhase playerPos skullRadius cs souls'
            ⟨c.id :: rest.collectedSouls,
              ⟨c.id, playerPos, c.position⟩ :: rest.events,
              rest.souls⟩
        | (false, souls') => narrowPhase playerPos skullRadius cs souls'
      else narrowPhase playerPos skullRadius cs souls

/-- `CollisionDetector.checkCollisionsOptimized` (lines 240-275), including
the early return on an empty candidate list. -/
def checkCollisionsOptimized (playerPos : Vec3) (skullRadius : ℚ)
    (souls : List Soul) : CollisionResult :=
  let candidateSouls := broadPhaseDetection playerPos souls
  if candidateSouls.isEmpty then ⟨[], [], souls⟩
  else narrowPhase playerPos skullRadius candidateSouls souls

/-- The default `skullCollisionRadius` (line 10). -/
def defaultSkullRadius : ℚ := 6 / 5

end CollisionDetector

/-- The `GameEngine` phases (`EnvironmentBuilder.js`, line 397):
`'menu' | 'playing' | 'game-over'`. -/
inductive GamePhase where
  | menu
  | playing
  | gameOver
deriving DecidableEq, Repr

/-- The per-frame inputs the engine reads from its collaborators:
the input vector and restart flag (InputManager), the player position after
this frame's `move`/`update` (PlayerController), and the `Math.random` draws
the soul registry consumes this frame (spawn position, per-soul float
positions). -/
structure Frame where
  inputX : ℚ
  inputZ : ℚ
  restartPressed : Bool
  playerPos : Vec3
  spawnPos : Vec3
  posOracle : ℕ → Vec3

/-- `GameEngine` state (`EnvironmentBuilder.js`, `GameEngine` class).
`gameTime` is the elapsed Playing time, `duration` is
`config.GAME_DURATION`, `spawnRateCfg` is `config.SOUL_SPAWN_RATE`,
`skullRadius` the collision detector's `skullCollisionRadius` and
`playerStart` the position `playerController.reset()` restores.
`endGameCount` instruments how many times `endGame` ran — i.e. how often the
game-over hand-off to the UI (`showGameOverUI`) was initiated — so that
"transitions to GameOver exactly once" is statable; it mirrors no stored JS
field, only the event history.  The wall-clock display timer
(`startTimer`/`updateTimerDisplay`) is a derived, non-authoritative read and
is not state. -/
structure GameState where
  currentState : GamePhase
  previousState : Option GamePhase
  score : ℕ
  gameTime : ℚ
  timeRemaining : ℚ
  duration : ℚ
  spawnRateCfg : ℚ
  skullRadius : ℚ
  playerPos : Vec3
  playerStart : Vec3
  soulManager : SoulManager
  endGameCount : ℕ

namespace GameEngine

/-- `GameEngine.changeState` (lines 743-779) together with the state-entry
handlers (lines 785-827): a no-op on the current phase, otherwise records the
previous phase and pauses/resumes soul spawning for the phase being entered.
The `showMenuUI`/`showGameUI`/`showGameOverUI` calls are UI-collaborator
hand-offs with no engine state. -/
def changeState (g : GameState) (s : GamePhase) : GameState :=
  if g.currentState = s then g
  else
    let g := { g with previousState := some g.currentState, currentState := s }
    match s with
    | .menu => { g with soulManager := g.soulManager.pauseSpawning }
    | .playing =>
        { g with soulManager := g.soulManager.resumeSpawning (some g.spawnRateCfg) }
    | .gameOver => { g with soulManager := g.soulManager.pauseSpawning }

/-- `GameEngine.startGame` (lines 666-699): switch to Playing, zero the game
clock, reset score and `timeRemaining` to the configured duration, reset the
player, clear all souls and resume spawning at `config.SOUL_SPAWN_RATE`. -/
def startGame (g : GameState) : GameState :=
  let g := changeState g .playing
  let g := { g with gameTime := 0 }
  let g := { g with score := 0, timeRemaining := g.duration, gameTime := 0 }
  let g := { g with playerPos := g.playerStart }
  { g with
      soulManager :=
        (g.soulManager.clearAllSouls).resumeSpawning (some g.spawnRateCfg) }

/-- `GameEngine.endGame` (lines 704-727): switch to GameOver and pause soul
spawning (once inside `changeState`'s entry handler and once directly).  The
bump of `endGameCount` instruments the game-over notification to the UI. -/
def endGame (g : GameState) : GameState :=
  let g := changeState g .gameOver
  let g := { g with soulManager := g.soulManager.pauseSpawning }
  { g with endGameCount := g.endGameCount + 1 }

/-- `GameEngine.handleSoulCollection` (lines 833-846), the collision callback
registered in `initializeGameState` (lines 509-513): souls only count while
Playing, where the score is incremented by `incrementScore()`'s default of 1
point (lines 1011-1020). -/
def handleSoulCollection (g : GameState) (_e : CollisionEvent) : GameState :=
  if g.currentState = .playing then { g with score := g.score + 1 } else g

/-- `GameEngine.updateMenuState` (lines 578-589): any non-zero input vector
starts the game. -/
def updateMenuState (g : GameState) (f : Frame) : GameState :=
  if ¬ f.inputX = 0 ∨ ¬ f.inputZ = 0 then startGame g else g

/-- `GameEngine.updatePlayingState` (lines 594-641) with `updateTimer` (lines
971-996) inlined: advance `gameTime`, recompute
`timeRemaining = max(0, GAME_DURATION - gameTime)`, end the game when it hits
zero; otherwise move the player (position supplied by the frame inputs),
update the soul registry, run the optimized collision check and deliver each
collision event to the registered callback (`handleSoulCollection`).  The
callbacks fire inside the collision loop in the source, but they only touch
the score, which the loop never reads, so folding them after the loop is
observationally identical. -/
def updatePlayingState (g : GameState) (dt : ℚ) (f : Frame) : GameState :=
  let g := { g with gameTime := g.gameTime + dt }
  let g := { g with timeRemaining := max 0 (g.duration - g.gameTime) }
  if g.timeRemaining ≤ 0 then endGame g
  else
    let g := { g with playerPos := f.playerPos }
    let g :=
      { g with soulManager := g.soulManager.update dt f.spawnPos f.posOracle }
    let r :=
      CollisionDetector.checkCollisionsOptimized g.playerPos g.skullRadius
        g.soulManager.activeSouls
    let g := { g with soulManager := { g.soulManager with activeSouls := r.souls } }
    r.events.foldl handleSoulCollection g

/-- `GameEngine.updateGameOverState` (lines 646-661): keep pausing spawning
and animating the existing souls; restart on the restart input. -/
def updateGameOverState (g : GameState) (dt : ℚ) (f : Frame) : GameState :=
  let g :=
    { g with
        soulManager :=
          (g.soulManager.pauseSpawning).update dt f.spawnPos f.posOracle }
  if f.restartPressed then startGame g else g

/-- The phase dispatch of `GameEngine.update` (lines 548-573).  The driver
clamps the raw frame delta to at most `1/30` s before dispatch (line 559);
`dt` here is that already-clamped delta. -/
def update (g : GameState) (dt : ℚ) (f : Frame) : GameState :=
  match g.currentState with
  | .menu => updateMenuState g f
  | .playing => updatePlayingState g dt f
  | .gameOver => updateGameOverState g dt f

/-- A run of the engine: one `update` per rendered frame. -/
def run (g : GameState) (frames : List (ℚ × Frame)) : GameState :=
  frames.foldl (fun g df => update g df.1 df.2) g

end GameEngine

/-- `ObjectPool` state (`ObjectPool` class in the pooling module).  Pooled
instances are identified by allocation order: the `i`-th object `createFn`
ever produced is written `i`, which captures JS reference identity (the
`Set` tracks references).  `pool` is the idle array (push/pop at the tail),
`activeObjects` the active `Set`, and `created` the number of objects
`createFn` has produced so far. -/
structure ObjectPool where
  pool : List ℕ
  activeObjects : Finset ℕ
  created : ℕ
deriving DecidableEq

namespace ObjectPool

/-- The `ObjectPool` constructor: pre-populates the idle array with
`initialSize` freshly created objects. -/
def mk0 (initialSize : ℕ) : ObjectPool :=
  { pool := List.range initialSize, activeObjects := ∅, created := initialSize }

/-- `ObjectPool.acquire` (lines 293-305): pop the last idle object, or create
a fresh one when the pool is empty; either way add it to the active set. -/
def acquire (st : ObjectPool) : ℕ × ObjectPool :=
  match st.pool.getLast? with
  | some obj =>
      (obj,
        { st with
            pool := st.pool.dropLast
            activeObjects := insert obj st.activeObjects })
  | none =>
      (st.created,
        { st with
            created := st.created + 1
            activeObjects := insert st.created st.activeObjects })

/-- `ObjectPool.release` (lines 311-325): a warn-and-return no-op when the
object is not tracked as active; otherwise remove it from the active set, run
the reset callback (which mutates only the object's own fields) and push it
onto the idle array. -/
def release (st : ObjectPool) (obj : ℕ) : ObjectPool :=
  if obj ∈ st.activeObjects then
    { st with
        activeObjects := st.activeObjects.erase obj
        pool := st.pool ++ [obj] }
  else st

/-- One client-visible pool operation. -/
inductive Op where
  | acquire
  | release (obj : ℕ)

/-- Apply one operation to the pool state. -/
def step (st : ObjectPool) : Op → ObjectPool
  | .acquire => (acquire st).2
  | .release obj => release st obj

/-- Run a sequence of acquire/release operations from a fresh pool. -/
def runOps (initialSize : ℕ) (ops : List Op) : ObjectPool :=
  ops.foldl step (mk0 initialSize)

/-- The pool bookkeeping invariant: the idle array holds no duplicates, no
object is simultaneously idle and active, idle plus active account for every
object ever created, and every tracked object was indeed created. -/
def Inv (st : ObjectPool) : Prop :=
  st.pool.Nodup ∧
    (∀ x ∈ st.pool, x ∉ st.activeObjects) ∧
    st.pool.length + st.activeObjects.card = st.created ∧
    (∀ x, x ∈ st.pool ∨ x ∈ st.activeObjects → x < st.created)

end ObjectPool

/-- A `THREE.Vector3` snapshot with real coordinates, for the trigonometric
motion model. -/
structure Vec3R where
  x : ℝ
  y : ℝ
  z : ℝ

/-- The free-float motion state of a soul, with exact real arithmetic
(`Soul.js`, constructor lines 8-49 name these fields; `update` lines 210-268
steps them).  Only the fields the position derivation reads are included;
rotation, glow pulsing and the particle system are rendering-only. -/
structure FreeSoul where
  position : Vec3R
  initialPosition : Vec3R
  floatOffset : ℝ
  floatSpeed : ℝ
  floatRange : ℝ
  driftOffset : ℝ
  driftSpeed : ℝ
  driftRange : ℝ
  erraticTimer : ℝ
  erraticInterval : ℝ
  erraticDirection : Vec3R
  erraticSpeed : ℝ
  erraticIntensity : ℝ

namespace FreeSoul

/-- The fresh `Math.random` draws consumed when the erratic timer crosses its
interval (`Soul.js`, lines 214-231): a new interval, a new (normalized)
direction and a new speed.  Modelling them as arbitrary reals subsumes the
actual distributions. -/
structure ErraticDraw where
  interval : ℝ
  direction : Vec3R
  speed : ℝ

/-- The free-float branch of `Soul.update` (`Soul.js`, lines 210-264),
executed for a not-collected soul: advance the erratic timer and re-roll its
parameters on crossing; advance the float and drift phases; derive the
position as base + drift + float + erratic step; then clamp radially in the
XZ-plane to `maxDistance = 9.0` and clamp the height to `[0.5, 6.0]`.
Mesh rotation and glow animation (lines 266-288) are rendering-only. -/
noncomputable def update (s : FreeSoul) (dt : ℝ) (draw : ErraticDraw) : FreeSoul :=
  let s :=
    if s.erraticInterval ≤ s.erraticTimer + dt then
      { s with
          erraticTimer := 0
          erraticInterval := draw.interval
          erraticDirection := draw.direction
          erraticSpeed := draw.speed }
    else { s with erraticTimer := s.erraticTimer + dt }
  let floatOffset := s.floatOffset + dt * s.floatSpeed
  let floatY := Real.sin floatOffset * s.floatRange
  let driftOffset := s.driftOffset + dt * s.driftSpeed
  let driftX := Real.sin driftOffset * s.driftRange
  let driftZ := Real.cos (driftOffset * (7 / 10)) * s.driftRange * (6 / 10)
  let ex := s.erraticDirection.x * (s.erraticSpeed * s.erraticIntensity * dt)
  let ey := s.erraticDirection.y * (s.erraticSpeed * s.erraticIntensity * dt)
  let ez := s.erraticDirection.z * (s.erraticSpeed * s.erraticIntensity * dt)
  let px := s.initialPosition.x + driftX + ex
  let py := s.initialPosition.y + floatY + ey
  let pz := s.initialPosition.z + driftZ + ez
  let distanceFromCenter := Real.sqrt (px * px + pz * pz)
  let px := if 9 < distanceFromCenter then px * (9 / distanceFromCenter) else px
  let pz := if 9 < distanceFromCenter then pz * (9 / distanceFromCenter) else pz
  let py := max (1 / 2) (min 6 py)
  { s with
      position := ⟨px, py, pz⟩
      floatOffset := floatOffset
      driftOffset := driftOffset }

end FreeSoul

/-! ### Helper lemmas -/

theorem sqrt_le_nine {t : ℝ} (h : t ≤ 81) : Real.sqrt t ≤ 9 := by
  have h9 : (9 : ℝ) = Real.sqrt 81 := by
    rw [show (81 : ℝ) = 9 ^ 2 by norm_num, Real.sqrt_sq (by norm_num : (0:ℝ) ≤ 9)]
  rw [h9]
  exact Real.sqrt_le_sqrt h

/-- The radial XZ clamp of `Soul.update` leaves the squared planar radius at
most `81`, whatever the unclamped position was. -/
theorem radial_clamp_sq_le (px pz : ℝ) :
    (if 9 < Real.sqrt (px * px + pz * pz) then
        px * (9 / Real.sqrt (px * px + pz * pz)) else px) ^ 2 +
      (if 9 < Real.sqrt (px * px + pz * pz) then
        pz * (9 / Real.sqrt (px * px + pz * pz)) else pz) ^ 2 ≤ 81 := by
  set d := Real.sqrt (px * px + pz * pz) with hd
  have hsq : d * d = px * px + pz * pz :=
    Real.mul_self_sqrt (add_nonneg (mul_self_nonneg px) (mul_self_nonneg pz))
  split_ifs with h9
  · have hd0 : (0 : ℝ) < d := lt_trans (by norm_num) h9
    have hdne : d ≠ 0 := ne_of_gt hd0
    have : (px * (9 / d)) ^ 2 + (pz * (9 / d)) ^ 2 = 81 := by
      field_simp
      nlinarith [hsq]
    linarith [this.le]
  · push_neg at h9
    have hdn : 0 ≤ d := Real.sqrt_nonneg _
    nlinarith [hsq]

/-! ### C8 -/

/-- C8: for every sequence of `update(dt)` calls, a Free (not collecting)
soul's position after each update lies within radial distance `9.0` of the
field center in the XZ-plane and within the vertical band `[0.5, 6.0]`.
The theorem quantifies over an arbitrary pre-update state, an arbitrary
`dt` and arbitrary random draws, so it applies to every update of every
sequence, indefinitely. -/
theorem C8_free_soul_position_bounded (s : FreeSoul) (dt : ℝ)
    (draw : FreeSoul.ErraticDraw) :
    Real.sqrt ((FreeSoul.update s dt draw).position.x ^ 2 +
        (FreeSoul.update s dt draw).position.z ^ 2) ≤ 9 ∧
      (FreeSoul.update s dt draw).position.x ^ 2 +
        (FreeSoul.update s dt draw).position.z ^ 2 ≤ 81 ∧
      1 / 2 ≤ (FreeSoul.update s dt draw).position.y ∧
      (FreeSoul.update s dt draw).position.y ≤ 6 := by
  have hy : 1 / 2 ≤ (FreeSoul.update s dt draw).position.y ∧
      (FreeSoul.update s dt draw).position.y ≤ 6 := by
    unfold FreeSoul.update
    dsimp only
    split
    all_goals
      refine ⟨le_max_left _ _, max_le (by norm_num) (min_le_left _ _)⟩
  have hx : (FreeSoul.update s dt draw).position.x ^ 2 +
      (FreeSoul.update s dt draw).position.z ^ 2 ≤ 81 := by
    unfold FreeSoul.update
    dsimp only
    split
    all_goals exact radial_clamp_sq_le _ _
  exact ⟨sqrt_le_nine hx, hx, hy.1, hy.2⟩

/-! ### C9 -/

namespace ObjectPool

theorem inv_mk0 (n : ℕ) : Inv (mk0 n) := by
  unfold Inv mk0
  dsimp only
  refine ⟨List.nodup_range n, ?_, by simp, ?_⟩
  · intro x hx hmem
    simp at hmem
  · intro x hx
    rcases hx with hx | hx
    · simpa using hx
    · simp at hx

theorem inv_acquire {st : ObjectPool} (h : Inv st) : Inv (acquire st).2 := by
  obtain ⟨pool, act, created⟩ := st
  obtain ⟨hnd, hdisj, hcard, hlt⟩ := h
  dsimp only at hnd hdisj hcard hlt
  rcases pool.eq_nil_or_concat with rfl | ⟨l, obj, rfl⟩
  · unfold acquire
    simp only [List.getLast?_nil]
    have hnotin : created ∉ act := fun hmem =>
      absurd (hlt _ (Or.inr hmem)) (lt_irrefl _)
    refine ⟨hnd, ?_, ?_, ?_⟩
    · intro x hx
      simp at hx
    · simp only [Finset.card_insert_of_not_mem hnotin]
      omega
    · intro x hx
      rcases hx with hx | hx
      · simp at hx
      · rcases Finset.mem_insert.mp hx with rfl | hx
        · exact Nat.lt_succ_self _
        · exact Nat.lt_succ_of_lt (hlt x (Or.inr hx))
  · rw [List.concat_eq_append] at hnd hdisj hcard hlt ⊢
    unfold acquire
    simp only [List.getLast?_concat, List.dropLast_concat]
    have hobj_pool : obj ∈ l ++ [obj] := by simp
    have hobj_act : obj ∉ act := hdisj obj hobj_pool
    have hnd_parts := List.nodup_append.mp hnd
    have hobj_l : obj ∉ l := by
      intro hmem
      exact hnd_parts.2.2 hmem (by simp)
    refine ⟨hnd_parts.1, ?_, ?_, ?_⟩
    · intro x hx hmem
      rcases Finset.mem_insert.mp hmem with rfl | hmem
      · exact hobj_l hx
      · exact hdisj x (List.mem_append_left _ hx) hmem
    · rw [Finset.card_insert_of_not_mem hobj_act]
      simp only [List.length_append, List.length_singleton] at hcard
      dsimp only
      omega
    · intro x hx
      rcases hx with hx | hx
      · exact hlt x (Or.inl (List.mem_append_left _ hx))
      · rcases Finset.mem_insert.mp hx with rfl | hx
        · exact hlt x (Or.inl hobj_pool)
        · exact hlt x (Or.inr hx)

theorem inv_release {st : ObjectPool} (h : Inv st) (obj : ℕ) :
    Inv (release st obj) := by
  obtain ⟨hnd, hdisj, hcard, hlt⟩ := h
  unfold release
  split_ifs with hmem
  · have hobj_pool : obj ∉ st.pool := fun hp => hdisj obj hp hmem
    refine ⟨?_, ?_, ?_, ?_⟩
    · rw [List.nodup_append]
      refine ⟨hnd, List.nodup_singleton _, ?_⟩
      intro a ha hb
      simp only [List.mem_singleton] at hb
      subst hb
      exact hobj_pool ha
    · intro x hx hmemx
      rcases List.mem_append.mp hx with hx | hx
      · exact hdisj x hx (Finset.mem_of_mem_erase hmemx)
      · simp only [List.mem_singleton] at hx
        subst hx
        exact (Finset.not_mem_erase _ _) hmemx
    · rw [Finset.card_erase_of_mem hmem]
      simp only [List.length_append, List.length_singleton]
      have hpos : 0 < st.activeObjects.card := Finset.card_pos.mpr ⟨obj, hmem⟩
      omega
    · intro x hx
      rcases hx with hx | hx
      · rcases List.mem_append.mp hx with hx | hx
        · exact hlt x (Or.inl hx)
        · simp only [List.mem_singleton] at hx
          subst hx
          exact hlt x (Or.inr hmem)
      · exact hlt x (Or.inr (Finset.mem_of_mem_erase hx))
  · exact ⟨hnd, hdisj, hcard, hlt⟩

theorem inv_foldl_step (ops : List Op) :
    ∀ (st : ObjectPool), Inv st → Inv (ops.foldl step st) := by
  induction ops with
  | nil => intro st h; exact h
  | cons op ops ih =>
      intro st h
      simp only [List.foldl_cons]
      apply ih
      cases op with
      | acquire => exact inv_acquire h
      | release obj => exact inv_release h obj

end ObjectPool

/-- C9: after every sequence of Entity Pool `acquire`/`release` operations,
idle plus active instances account exactly for every instance ever created
and no instance is simultaneously idle and active; and releasing an instance
that is not tracked as active is a no-op (modulo the logged warning) that
leaves the whole pool state unchanged. -/
theorem C9_pool_round_trip :
    (∀ (initialSize : ℕ) (ops : List ObjectPool.Op),
        (ObjectPool.runOps initialSize ops).pool.length +
            (ObjectPool.runOps initialSize ops).activeObjects.card =
          (ObjectPool.runOps initialSize ops).created ∧
        ∀ x ∈ (ObjectPool.runOps initialSize ops).pool,
          x ∉ (ObjectPool.runOps initialSize ops).activeObjects) ∧
      ∀ (st : ObjectPool) (obj : ℕ),
        obj ∉ st.activeObjects → ObjectPool.release st obj = st := by
  constructor
  · intro initialSize ops
    have h : ObjectPool.Inv (ObjectPool.runOps initialSize ops) :=
      ObjectPool.inv_foldl_step ops _ (ObjectPool.inv_mk0 initialSize)
    exact ⟨h.2.2.1, h.2.1⟩
  · intro st obj h
    unfold ObjectPool.release
    rw [if_neg h]

/-- Witness for C9 at concrete inputs: two acquires and one release on a pool
of initial size 2, and a release of an untracked instance. -/
theorem C9_pool_round_trip_witness :
    ((ObjectPool.runOps 2 [.acquire, .acquire, .release 1]).pool.length +
        (ObjectPool.runOps 2 [.acquire, .acquire, .release 1]).activeObjects.card =
      (ObjectPool.runOps 2 [.acquire, .acquire, .release 1]).created) ∧
      ObjectPool.release (ObjectPool.mk0 3) 5 = ObjectPool.mk0 3 :=
  ⟨(C9_pool_round_trip.1 2 [.acquire, .acquire, .release 1]).1,
    C9_pool_round_trip.2 (ObjectPool.mk0 3) 5 (by decide)⟩

/-! ### C6 -/

namespace Soul

/-- `n` successive frame updates of a single soul with a fixed `dt`; the
free-float position derived at step `k` is `npos k` (its value never affects
the collection scalar). -/
def updateIter (dt : ℚ) (npos : ℕ → Vec3) : ℕ → Soul → Soul
  | 0, s => s
  | n + 1, s => Soul.update (updateIter dt npos n s) dt (npos n)

theorem updateIter_nonneg (dt : ℚ) (npos : ℕ → Vec3) (n : ℕ) (s : Soul)
    (h : 0 ≤ s.collectionAnimation) :
    0 ≤ (updateIter dt npos n s).collectionAnimation := by
  induction n with
  | zero => exact h
  | succ n ih => exact collectionAnimation_update_nonneg _ _ ih _

theorem updateIter_decay (dt : ℚ) (hdt : 0 ≤ dt) (npos : ℕ → Vec3) (n : ℕ)
    (s : Soul) :
    (updateIter dt npos n s).collectionAnimation ≤
      max 0 (s.collectionAnimation - 4 * dt * n) := by
  induction n with
  | zero =>
      simp only [updateIter, Nat.cast_zero, mul_zero, sub_zero]
      exact le_max_right _ _
  | succ n ih =>
      simp only [updateIter]
      set t := updateIter dt npos n s with ht
      rcases le_or_lt t.collectionAnimation 0 with hle | hpos
      · have : (Soul.update t dt (npos n)).collectionAnimation ≤
            t.collectionAnimation := collectionAnimation_update_le t dt hdt _
        have h0 : (0 : ℚ) ≤ max 0 (s.collectionAnimation - 4 * dt * (n + 1 : ℕ)) :=
          le_max_left _ _
        push_cast at h0 ⊢
        linarith
      · have hmax : s.collectionAnimation - 4 * dt * n > 0 := by
          by_contra hneg
          push_neg at hneg
          have : max 0 (s.collectionAnimation - 4 * dt * n) = 0 :=
            max_eq_left hneg
          rw [this] at ih
          linarith
        have ihx : t.collectionAnimation ≤ s.collectionAnimation - 4 * dt * n := by
          have := max_eq_right hmax.le
          rw [this] at ih
          exact ih
        unfold Soul.update updateCollectionAnimation
        dsimp only
        rw [if_pos hpos]
        have h0 : (0 : ℚ) ≤ max 0 (s.collectionAnimation - 4 * dt * (n + 1 : ℕ)) :=
          le_max_left _ _
        have h1 : s.collectionAnimation - 4 * dt * (n + 1 : ℕ) ≤
            max 0 (s.collectionAnimation - 4 * dt * (n + 1 : ℕ)) := le_max_right _ _
        repeat' split
        all_goals (try dsimp only)
        all_goals push_cast at h0 h1 ⊢
        all_goals linarith

end Soul

/-- C6: a soul's `collectionProgress` (the `collectionAnimation` scalar)
stays inside `[0,1]` under `startCollection` and frame updates with
`dt ≥ 0`; once `startCollection()` has run it is non-increasing across every
subsequent `update(dt)` with `dt ≥ 0`; and for a fixed `dt > 0` it reaches
exactly `0` within any number `n` of updates with `4·dt·n ≥ 1` — the fixed
decay rate `4.0` per second, a `0.25 s` window. -/
theorem C6_collection_progress_monotone :
    (∀ (s : Soul) (dt : ℚ) (newPos : Vec3), 0 ≤ dt →
        0 ≤ s.collectionAnimation → s.collectionAnimation ≤ 1 →
        (0 ≤ (s.update dt newPos).collectionAnimation ∧
            (s.update dt newPos).collectionAnimation ≤ 1) ∧
          0 ≤ s.startCollection.collectionAnimation ∧
            s.startCollection.collectionAnimation ≤ 1) ∧
      (∀ (s : Soul) (dt : ℚ) (newPos : Vec3), 0 ≤ dt →
        (s.update dt newPos).collectionAnimation ≤ s.collectionAnimation) ∧
      ∀ (s : Soul) (dt : ℚ) (npos : ℕ → Vec3) (n : ℕ),
        s.isCollected = false → 0 < dt → 1 ≤ 4 * dt * n →
        (Soul.updateIter dt npos n s.startCollection).collectionAnimation = 0 := by
  refine ⟨?_, ?_, ?_⟩
  · intro s dt newPos hdt h0 h1
    refine ⟨⟨Soul.collectionAnimation_update_nonneg s dt h0 newPos, ?_⟩, ?_⟩
    · exact le_trans (Soul.collectionAnimation_update_le s dt hdt newPos) h1
    · unfold Soul.startCollection
      split
      · exact ⟨h0, h1⟩
      · exact ⟨by norm_num, by norm_num⟩
  · intro s dt newPos hdt
    exact Soul.collectionAnimation_update_le s dt hdt newPos
  · intro s dt npos n hfree hdt hn
    have hstart : s.startCollection.collectionAnimation = 1 := by
      unfold Soul.startCollection
      rw [if_neg (by simp [hfree])]
    have hup : (Soul.updateIter dt npos n s.startCollection).collectionAnimation ≤
        max 0 (s.startCollection.collectionAnimation - 4 * dt * n) :=
      Soul.updateIter_decay dt hdt.le npos n _
    rw [hstart] at hup
    have hmax : max 0 ((1 : ℚ) - 4 * dt * n) = 0 := max_eq_left (by linarith)
    rw [hmax] at hup
    have hlo : 0 ≤ (Soul.updateIter dt npos n s.startCollection).collectionAnimation :=
      Soul.updateIter_nonneg dt npos n _ (by rw [hstart]; norm_num)
    linarith

/-- A concrete free soul used by witnesses. -/
def demoSoul : Soul :=
  { id := 0, position := ⟨0, 2, 0⟩, isCollected := false, collectionAnimation := 0 }

/-- Witness for C6 at concrete inputs: a fresh free soul, `dt = 1/8`,
`n = 2` updates (so `4·dt·n = 1`). -/
theorem C6_collection_progress_monotone_witness :
    ((Soul.update demoSoul (1/8) ⟨0, 2, 0⟩).collectionAnimation ≤
        demoSoul.collectionAnimation) ∧
      (Soul.updateIter (1/8) (fun _ => ⟨0, 2, 0⟩) 2
          demoSoul.startCollection).collectionAnimation = 0 :=
  ⟨C6_collection_progress_monotone.2.1 _ (1/8) _ (by norm_num),
    C6_collection_progress_monotone.2.2 _ (1/8) _ 2 rfl (by norm_num) (by norm_num)⟩

/-! ### C10 -/

namespace SoulManager

theorem returnSoulToPool_length {pool : List Soul} (s : Soul)
    (h : pool.length ≤ 20) : (returnSoulToPool pool s).length ≤ 20 := by
  unfold returnSoulToPool
  split_ifs with hlt
  · simp only [List.length_append, List.length_singleton]
    omega
  · exact h

theorem foldl_returnSoulToPool_length (souls : List Soul) :
    ∀ pool : List Soul, pool.length ≤ 20 →
      (souls.foldl returnSoulToPool pool).length ≤ 20 := by
  induction souls with
  | nil => intro pool h; exact h
  | cons s souls ih =>
      intro pool h
      simp only [List.foldl_cons]
      exact ih _ (returnSoulToPool_length s h)

theorem getSoulFromPool_length (pool : List Soul) :
    (getSoulFromPool pool).2.length ≤ pool.length := by
  unfold getSoulFromPool
  cases pool.getLast? with
  | none => exact le_refl _
  | some s =>
      simp only [List.length_dropLast]
      omega

theorem spawnSoul_pool_length (st : SoulManager) (pos : Vec3)
    (h : st.soulPool.length ≤ 20) :
    (spawnSoul st pos).2.soulPool.length ≤ 20 := by
  unfold spawnSoul
  split_ifs
  · exact h
  · split
    · rename_i heq
      have := getSoulFromPool_length st.soulPool
      rw [heq] at this
      dsimp only at this ⊢
      omega
    · rename_i heq
      have := getSoulFromPool_length st.soulPool
      rw [heq] at this
      dsimp only at this ⊢
      omega

theorem removeSoul_pool_length (st : SoulManager) (i : ℕ)
    (h : st.soulPool.length ≤ 20) :
    (removeSoul st i).soulPool.length ≤ 20 := by
  unfold removeSoul
  split
  · exact h
  · exact returnSoulToPool_length _ h

theorem foldl_removeSoul_pool_length (ids : List ℕ) :
    ∀ st : SoulManager, st.soulPool.length ≤ 20 →
      (ids.foldl removeSoul st).soulPool.length ≤ 20 := by
  induction ids with
  | nil => intro st h; exact h
  | cons i ids ih =>
      intro st h
      simp only [List.foldl_cons]
      exact ih _ (removeSoul_pool_length st i h)

theorem update_pool_length (st : SoulManager) (dt : ℚ) (spawnPos : Vec3)
    (posOracle : ℕ → Vec3) (h : st.soulPool.length ≤ 20) :
    (update st dt spawnPos posOracle).soulPool.length ≤ 20 := by
  unfold update
  dsimp only
  apply foldl_removeSoul_pool_length
  dsimp only
  split_ifs with hc
  · exact spawnSoul_pool_length _ _ h
  · exact h

theorem clearAllSouls_pool_length (st : SoulManager)
    (h : st.soulPool.length ≤ 20) :
    (clearAllSouls st).soulPool.length ≤ 20 :=
  foldl_returnSoulToPool_length _ _ h

end SoulManager

/-- A registry whose idle pool is already full (20 pooled souls) and which
holds one active soul: used to exhibit the silent discard. -/
def demoFullManager : SoulManager :=
  { SoulManager.mk0 with
      activeSouls :=
        [{ id := 99, position := ⟨0, 2, 0⟩, isCollected := false,
           collectionAnimation := 0 }]
      soulPool := List.replicate 20 demoSoul }

/-- C10: the registry's internal idle pool never exceeds 20 souls —
`returnSoulToPool` appends only while the pool has fewer than 20 entries and
silently discards the soul otherwise; the bound `≤ 20` is preserved by
`update`, `removeSoul`, `spawnSoul` and `clearAllSouls` (and holds for the
freshly constructed registry); consequently `clearAllSouls` on a registry
with a full pool does not return its active soul to the pool. -/
theorem C10_idle_pool_capped_at_20 :
    (∀ (pool : List Soul) (s : Soul),
        (pool.length < 20 → SoulManager.returnSoulToPool pool s = pool ++ [s]) ∧
          (¬ pool.length < 20 → SoulManager.returnSoulToPool pool s = pool)) ∧
      (∀ (pool : List Soul) (s : Soul), pool.length ≤ 20 →
        (SoulManager.returnSoulToPool pool s).length ≤ 20) ∧
      (∀ (st : SoulManager) (dt : ℚ) (spawnPos : Vec3) (posOracle : ℕ → Vec3),
        st.soulPool.length ≤ 20 →
        (SoulManager.update st dt spawnPos posOracle).soulPool.length ≤ 20) ∧
      (∀ (st : SoulManager) (i : ℕ), st.soulPool.length ≤ 20 →
        (SoulManager.removeSoul st i).soulPool.length ≤ 20) ∧
      (∀ (st : SoulManager) (pos : Vec3), st.soulPool.length ≤ 20 →
        (SoulManager.spawnSoul st pos).2.soulPool.length ≤ 20) ∧
      (∀ st : SoulManager, st.soulPool.length ≤ 20 →
        (SoulManager.clearAllSouls st).soulPool.length ≤ 20) ∧
      SoulManager.mk0.soulPool.length ≤ 20 ∧
      ((SoulManager.clearAllSouls demoFullManager).soulPool =
          demoFullManager.soulPool ∧
        (SoulManager.clearAllSouls demoFullManager).activeSouls = [] ∧
        ∀ s ∈ demoFullManager.activeSouls,
          s ∉ (SoulManager.clearAllSouls demoFullManager).soulPool) := by
  refine ⟨?_, ?_, ?_, ?_, ?_, ?_, ?_, ?_⟩
  · intro pool s
    constructor
    · intro hlt
      unfold SoulManager.returnSoulToPool
      rw [if_pos hlt]
    · intro hge
      unfold SoulManager.returnSoulToPool
      rw [if_neg hge]
  · intro pool s h
    exact SoulManager.returnSoulToPool_length s h
  · intro st dt spawnPos posOracle h
    exact SoulManager.update_pool_length st dt spawnPos posOracle h
  · intro st i h
    exact SoulManager.removeSoul_pool_length st i h
  · intro st pos h
    exact SoulManager.spawnSoul_pool_length st pos h
  · intro st h
    exact SoulManager.clearAllSouls_pool_length st h
  · decide
  · refine ⟨by decide, by decide, by decide⟩

/-- Witness for C10 at concrete inputs: a full pool discards the returned
soul, and the bound is preserved through a registry update. -/
theorem C10_idle_pool_capped_at_20_witness :
    SoulManager.returnSoulToPool (List.replicate 20 demoSoul) demoSoul =
        List.replicate 20 demoSoul ∧
      (SoulManager.update SoulManager.mk0 (1/2) ⟨0, 2, 0⟩
          (fun _ => ⟨0, 2, 0⟩)).soulPool.length ≤ 20 :=
  ⟨(C10_idle_pool_capped_at_20.1 (List.replicate 20 demoSoul) demoSoul).2
      (by decide),
    C10_idle_pool_capped_at_20.2.2.1 SoulManager.mk0 (1/2) ⟨0, 2, 0⟩
      (fun _ => ⟨0, 2, 0⟩) (by decide)⟩

/-! ### C4 -/

namespace SoulManager

theorem spawnSoul_maxSouls (st : SoulManager) (pos : Vec3) :
    (spawnSoul st pos).2.maxSouls = st.maxSouls := by
  unfold spawnSoul
  split_ifs
  · rfl
  · split
    all_goals rfl

theorem spawnSoul_none_at_cap (st : SoulManager) (pos : Vec3)
    (h : st.maxSouls ≤ st.activeSouls.length) :
    (spawnSoul st pos).1 = none ∧ (spawnSoul st pos).2 = st := by
  unfold spawnSoul
  rw [if_pos h]
  exact ⟨rfl, rfl⟩

theorem spawnSoul_length_le (st : SoulManager) (pos : Vec3)
    (h : st.activeSouls.length ≤ st.maxSouls) :
    (spawnSoul st pos).2.activeSouls.length ≤ st.maxSouls := by
  unfold spawnSoul
  split_ifs with hcap
  · exact h
  · push_neg at hcap
    split
    all_goals
      dsimp only
      simp only [List.length_append, List.length_singleton]
      omega

theorem removeSoul_length_le (st : SoulManager) (i : ℕ) :
    (removeSoul st i).activeSouls.length ≤ st.activeSouls.length ∧
      (removeSoul st i).maxSouls = st.maxSouls := by
  unfold removeSoul
  split
  · exact ⟨le_refl _, rfl⟩
  · exact ⟨List.length_filter_le _ _, rfl⟩

theorem foldl_removeSoul_length_le (ids : List ℕ) :
    ∀ st : SoulManager,
      (ids.foldl removeSoul st).activeSouls.length ≤ st.activeSouls.length ∧
        (ids.foldl removeSoul st).maxSouls = st.maxSouls := by
  induction ids with
  | nil => intro st; exact ⟨le_refl _, rfl⟩
  | cons i ids ih =>
      intro st
      simp only [List.foldl_cons]
      obtain ⟨h1, h2⟩ := ih (removeSoul st i)
      obtain ⟨h3, h4⟩ := removeSoul_length_le st i
      exact ⟨le_trans h1 h3, h2.trans h4⟩

theorem update_cap (st : SoulManager) (dt : ℚ) (spawnPos : Vec3)
    (posOracle : ℕ → Vec3) (h : st.activeSouls.length ≤ st.maxSouls) :
    (update st dt spawnPos posOracle).activeSouls.length ≤ st.maxSouls := by
  unfold update
  dsimp only
  set st1 : SoulManager := { st with spawnTimer := st.spawnTimer + dt } with hst1
  set st2 : SoulManager :=
    if st1.spawnInterval ≤ st1.spawnTimer ∧ st1.activeSouls.length < st1.maxSouls
    then { (spawnSoul st1 spawnPos).2 with spawnTimer := 0 } else st1 with hst2
  have h2 : st2.activeSouls.length ≤ st.maxSouls := by
    rw [hst2]
    split_ifs with hc
    · have := spawnSoul_length_le st1 spawnPos h
      exact this
    · exact h
  have hmax2 : st2.maxSouls = st.maxSouls := by
    rw [hst2]
    split_ifs with hc
    · exact spawnSoul_maxSouls st1 spawnPos
    · rfl
  set st3 : SoulManager :=
    { st2 with
        activeSouls :=
          st2.activeSouls.map (fun (s : Soul) => s.update dt (posOracle s.id)) }
    with hst3
  have h3 : st3.activeSouls.length ≤ st.maxSouls := by
    rw [hst3]
    simpa using h2
  obtain ⟨hf, _⟩ :=
    foldl_removeSoul_length_le
      ((st3.activeSouls.filter (fun s => s.isCollectionComplete)).map Soul.id) st3
  exact le_trans hf h3

end SoulManager

/-- C4: the number of active souls never exceeds `maxSouls` under any spawn
sequence — `spawnSoul` preserves the cap and returns `null` at capacity, and
a full registry `update` (spawn attempt, per-soul updates, removals)
preserves it too; concretely, with `maxSouls = 1`, a second back-to-back
`spawnSoul()` returns `null` and leaves exactly one active soul. -/
theorem C4_population_cap :
    (∀ (st : SoulManager) (pos : Vec3),
        (st.activeSouls.length ≤ st.maxSouls →
          (SoulManager.spawnSoul st pos).2.activeSouls.length ≤ st.maxSouls) ∧
          (st.maxSouls ≤ st.activeSouls.length →
            (SoulManager.spawnSoul st pos).1 = none)) ∧
      (∀ (st : SoulManager) (dt : ℚ) (spawnPos : Vec3) (posOracle : ℕ → Vec3),
        st.activeSouls.length ≤ st.maxSouls →
        (SoulManager.update st dt spawnPos posOracle).activeSouls.length ≤
          st.maxSouls) ∧
      ((SoulManager.spawnSoul
            (SoulManager.setMaxSouls SoulManager.mk0 1) ⟨0, 2, 0⟩).1.isSome ∧
        (SoulManager.spawnSoul
            (SoulManager.spawnSoul
              (SoulManager.setMaxSouls SoulManager.mk0 1) ⟨0, 2, 0⟩).2
            ⟨3, 2, 0⟩).1 = none ∧
        (SoulManager.spawnSoul
            (SoulManager.spawnSoul
              (SoulManager.setMaxSouls SoulManager.mk0 1) ⟨0, 2, 0⟩).2
            ⟨3, 2, 0⟩).2.activeSouls.length = 1) := by
  refine ⟨?_, ?_, ?_⟩
  · intro st pos
    exact ⟨fun h => SoulManager.spawnSoul_length_le st pos h,
      fun h => (SoulManager.spawnSoul_none_at_cap st pos h).1⟩
  · intro st dt spawnPos posOracle h
    exact SoulManager.update_cap st dt spawnPos posOracle h
  · exact ⟨by decide, by decide, by decide⟩

/-- Witness for C4 at concrete inputs: a registry holding one soul with
`maxSouls = 1` rejects a further spawn, and an update preserves the cap. -/
theorem C4_population_cap_witness :
    ((SoulManager.spawnSoul
        (SoulManager.spawnSoul
          (SoulManager.setMaxSouls SoulManager.mk0 1) ⟨0, 2, 0⟩).2
        ⟨3, 2, 0⟩).1 = none) ∧
      (SoulManager.update (SoulManager.setMaxSouls SoulManager.mk0 1) (1/2)
          ⟨0, 2, 0⟩ (fun _ => ⟨0, 2, 0⟩)).activeSouls.length ≤
        (SoulManager.setMaxSouls SoulManager.mk0 1).maxSouls :=
  ⟨(C4_population_cap.1
        (SoulManager.spawnSoul
          (SoulManager.setMaxSouls SoulManager.mk0 1) ⟨0, 2, 0⟩).2
        ⟨3, 2, 0⟩).2 (by decide),
    C4_population_cap.2.1 (SoulManager.setMaxSouls SoulManager.mk0 1) (1/2)
      ⟨0, 2, 0⟩ (fun _ => ⟨0, 2, 0⟩) (by decide)⟩

/-! ### C1 -/

/-- C1 (divergence witness): `pauseSpawning` fails to pause spawning.
`pauseSpawning` only zeroes `spawnRate` (`SoulManager.js`, lines 348-350),
but `update`'s spawn condition reads `spawnInterval` — which keeps its old
value — and `spawnSoul` checks only the capacity, so on a freshly
constructed, then paused registry, one `update(0.5)` still spawns a soul and
a direct `spawnSoul()` still returns a soul instead of `null`.  Existing
souls do keep receiving their per-entity update (the claim's remaining
conjunct), but the "spawn nothing new" and "returns null while paused" parts
are false in the code. -/
theorem C1_pause_spawning_violated :
    (SoulManager.pauseSpawning SoulManager.mk0).spawnRate = 0 ∧
      (SoulManager.pauseSpawning SoulManager.mk0).spawnInterval = 1 / 2 ∧
      (SoulManager.update (SoulManager.pauseSpawning SoulManager.mk0) (1/2)
          ⟨0, 2, 0⟩ (fun _ => ⟨0, 2, 0⟩)).activeSouls.length = 1 ∧
      (SoulManager.spawnSoul (SoulManager.pauseSpawning SoulManager.mk0)
          ⟨0, 2, 0⟩).1.isSome = true := by
  refine ⟨by decide, by decide, by decide, by decide⟩

/-! ### Collision machinery: lemmas for C3 and C7 -/

theorem Soul.startCollection_id (s : Soul) : s.startCollection.id = s.id := by
  unfold Soul.startCollection
  split
  all_goals rfl

theorem Soul.startCollection_isCollected (s : Soul) :
    s.startCollection.isCollected = true := by
  unfold Soul.startCollection
  split
  · assumption
  · rfl

/-- With pairwise-distinct ids, the `Map.get` lookup of a tracked soul's id
returns exactly that soul. -/
theorem find?_id_eq_some {souls : List Soul} (h : idsNodup souls) {s : Soul}
    (hs : s ∈ souls) :
    souls.find? (fun t => t.id = s.id) = some s := by
  induction souls with
  | nil => cases hs
  | cons a l ih =>
      unfold idsNodup at h
      simp only [List.map_cons, List.nodup_cons] at h
      rcases List.mem_cons.mp hs with rfl | hmem
      · exact List.find?_cons_of_pos l (by simp)
      · by_cases ha : a.id = s.id
        · exact absurd (ha ▸ List.mem_map_of_mem Soul.id hmem) h.1
        · rw [List.find?_cons_of_neg l (by simpa using ha)]
          exact ih h.2 hmem

/-- Two tracked souls with the same id are the same soul. -/
theorem eq_of_mem_of_id_eq {souls : List Soul} (h : idsNodup souls) {c s : Soul}
    (hc : c ∈ souls) (hs : s ∈ souls) (hid : c.id = s.id) : c = s :=
  List.inj_on_of_nodup_map h hc hs hid

namespace SoulManager

theorem collectSoul_of_find?_none {souls : List Soul} {i : ℕ}
    (h : souls.find? (fun t => t.id = i) = none) :
    collectSoul souls i = (false, souls) := by
  unfold collectSoul
  rw [h]

theorem collectSoul_of_collected {souls : List Soul} {i : ℕ} {s : Soul}
    (h : souls.find? (fun t => t.id = i) = some s) (hc : s.isCollected = true) :
    collectSoul souls i = (false, souls) := by
  unfold collectSoul
  rw [h]
  dsimp only
  rw [if_pos hc]

theorem collectSoul_of_free {souls : List Soul} {i : ℕ} {s : Soul}
    (h : souls.find? (fun t => t.id = i) = some s) (hc : s.isCollected = false) :
    collectSoul souls i =
      (true, souls.map (fun (t : Soul) => if t.id = i then t.startCollection else t)) := by
  unfold collectSoul
  rw [h]
  dsimp only
  rw [if_neg (by simp [hc])]

/-- `collectSoul` leaves the lookup of every other id untouched. -/
theorem collectSoul_snd_find?_ne (souls : List Soul) (i j : ℕ) (hij : ¬ j = i) :
    ((collectSoul souls i).2).find? (fun t => t.id = j) =
      souls.find? (fun t => t.id = j) := by
  rcases hfind : souls.find? (fun t => t.id = i) with _ | s
  · rw [collectSoul_of_find?_none hfind]
  · by_cases hc : s.isCollected = true
    · rw [collectSoul_of_collected hfind hc]
    · rw [collectSoul_of_free hfind (by simpa using hc)]
      dsimp only
      rw [List.find?_map]
      have hcomp :
          ((fun t => decide (t.id = j)) ∘
              fun (t : Soul) => if t.id = i then t.startCollection else t) =
            fun (t : Soul) => decide (t.id = j) := by
        funext t
        by_cases ht : t.id = i
        · simp [ht, Soul.startCollection_id, hij]
        · simp [ht]
      rw [hcomp]
      rcases hfj : souls.find? (fun t => t.id = j) with _ | u
      · rw [hfj]
        rfl
      · rw [hfj]
        have hu : u.id = j := by simpa using List.find?_some hfj
        have hui : ¬ u.id = i := by rw [hu]; exact hij
        simp [hui]

end SoulManager

namespace CollisionDetector

/-- The narrow test of the resolver: within
`skullCollisionRadius + soul.getCollisionRadius()`. -/
def narrowTest (playerPos : Vec3) (skullRadius : ℚ) (c : Soul) : Bool :=
  distLe playerPos c.position (skullRadius + Soul.collisionRadius)

/-- Characterization of the narrow-phase loop: when every candidate is a
tracked, not-yet-collected soul with a unique id, the loop collects exactly
the candidates passing the narrow distance test, in order, and fires exactly
one event per collected candidate. -/
theorem narrowPhase_spec (playerPos : Vec3) (skullRadius : ℚ) :
    ∀ (cands souls : List Soul),
      (cands.map Soul.id).Nodup →
      (∀ c ∈ cands,
        souls.find? (fun t => t.id = c.id) = some c ∧ c.isCollected = false) →
      (narrowPhase playerPos skullRadius cands souls).collectedSouls =
          (cands.filter (narrowTest playerPos skullRadius)).map Soul.id ∧
        (narrowPhase playerPos skullRadius cands souls).events =
          (cands.filter (narrowTest playerPos skullRadius)).map
            (fun c => ⟨c.id, playerPos, c.position⟩) := by
  intro cands
  induction cands with
  | nil => intro souls _ _; exact ⟨rfl, rfl⟩
  | cons c cs ih =>
      intro souls hnd hpre
      obtain ⟨hfind, hfree⟩ := hpre c (List.mem_cons_self c cs)
      simp only [List.map_cons, List.nodup_cons] at hnd
      have hcollect := SoulManager.collectSoul_of_free hfind hfree
      have hpre' : ∀ c' ∈ cs,
          (SoulManager.collectSoul souls c.id).2.find?
              (fun t => t.id = c'.id) = some c' ∧ c'.isCollected = false := by
        intro c' hc'
        have hne : ¬ c'.id = c.id := fun hEq =>
          hnd.1 (hEq ▸ List.mem_map_of_mem Soul.id hc')
        refine ⟨?_, (hpre c' (List.mem_cons_of_mem c hc')).2⟩
        rw [SoulManager.collectSoul_snd_find?_ne souls c.id c'.id hne]
        exact (hpre c' (List.mem_cons_of_mem c hc')).1
      unfold narrowPhase
      by_cases htest : narrowTest playerPos skullRadius c = true
      · have htest' :
            distLe playerPos c.position (skullRadius + Soul.collisionRadius) = true :=
          htest
        rw [if_pos htest', hcollect]
        dsimp only
        have hpre2 : ∀ c' ∈ cs,
            (souls.map (fun (t : Soul) =>
                if t.id = c.id then t.startCollection else t)).find?
                (fun t => t.id = c'.id) = some c' ∧ c'.isCollected = false := by
          intro c' hc'
          have := hpre' c' hc'
          rw [hcollect] at this
          exact this
        obtain ⟨hids, hevs⟩ := ih _ hnd.2 hpre2
        refine ⟨?_, ?_⟩
        · rw [List.filter_cons_of_pos htest, List.map_cons]
          rw [hids]
        · rw [List.filter_cons_of_pos htest, List.map_cons]
          rw [hevs]
      · have htest' :
            ¬ distLe playerPos c.position (skullRadius + Soul.collisionRadius) = true :=
          htest
        rw [if_neg htest']
        obtain ⟨hids, hevs⟩ := ih souls hnd.2 (fun c' hc' =>
          hpre c' (List.mem_cons_of_mem c hc'))
        rw [List.filter_cons_of_neg htest]
        exact ⟨hids, hevs⟩

theorem checkCollisionsOptimized_eq (playerPos : Vec3) (skullRadius : ℚ)
    (souls : List Soul) :
    checkCollisionsOptimized playerPos skullRadius souls =
      narrowPhase playerPos skullRadius
        (broadPhaseDetection playerPos souls) souls := by
  unfold checkCollisionsOptimized
  dsimp only
  split_ifs with h
  · rw [List.isEmpty_iff.mp h]
    rfl
  · rfl

theorem broadPhase_mem {playerPos : Vec3} {souls : List Soul} {c : Soul} :
    c ∈ broadPhaseDetection playerPos souls ↔
      c ∈ souls ∧ c.isCollected = false ∧ distLe playerPos c.position 5 = true := by
  unfold broadPhaseDetection
  rw [List.mem_filter]
  constructor
  · rintro ⟨h1, h2⟩
    simp only [Bool.and_eq_true, Bool.not_eq_true'] at h2
    exact ⟨h1, h2.1, h2.2⟩
  · rintro ⟨h1, h2, h3⟩
    exact ⟨h1, by simp [h2, h3]⟩

theorem broadPhase_ids_nodup (playerPos : Vec3) {souls : List Soul}
    (h : idsNodup souls) :
    ((broadPhaseDetection playerPos souls).map Soul.id).Nodup :=
  List.Nodup.sublist (List.Sublist.map Soul.id (List.filter_sublist souls)) h

theorem broadPhase_pre (playerPos : Vec3) {souls : List Soul}
    (h : idsNodup souls) :
    ∀ c ∈ broadPhaseDetection playerPos souls,
      souls.find? (fun t => t.id = c.id) = some c ∧ c.isCollected = false := by
  intro c hc
  obtain ⟨hmem, hfree, _⟩ := broadPhase_mem.mp hc
  exact ⟨find?_id_eq_some h hmem, hfree⟩

/-- The collected-id list of a full resolver call, in closed form. -/
theorem checkCollisionsOptimized_collected (playerPos : Vec3) (skullRadius : ℚ)
    {souls : List Soul} (h : idsNodup souls) :
    (checkCollisionsOptimized playerPos skullRadius souls).collectedSouls =
        ((broadPhaseDetection playerPos souls).filter
          (narrowTest playerPos skullRadius)).map Soul.id ∧
      (checkCollisionsOptimized playerPos skullRadius souls).events =
        ((broadPhaseDetection playerPos souls).filter
          (narrowTest playerPos skullRadius)).map
            (fun c => ⟨c.id, playerPos, c.position⟩) := by
  rw [checkCollisionsOptimized_eq]
  exact narrowPhase_spec playerPos skullRadius _ souls
    (broadPhase_ids_nodup playerPos h) (broadPhase_pre playerPos h)

end CollisionDetector

/-! ### C3 -/

/-- Two free souls at `(1.4, 0, 0)` and `(1.6, 0, 0)`: the spec's concrete
collision scenario. -/
def c3Souls : List Soul :=
  [{ id := 0, position := ⟨7/5, 0, 0⟩, isCollected := false, collectionAnimation := 0 },
   { id := 1, position := ⟨8/5, 0, 0⟩, isCollected := false, collectionAnimation := 0 }]

/-- C3: one resolver call collects an active, not-yet-collecting soul iff the
Euclidean distance from the avatar is at most
`avatarRadius + soul.collisionRadius` (whenever that sum does not exceed the
broad-phase radius `5`, as with both the default radii and the scenario's);
a soul farther than the broad-phase radius `5` is never collected; the broad
phase never excludes an eligible soul within radius `5`; and concretely, with
the avatar at the origin with radius `1` and soul radius `0.5`, the soul at
`(1.4,0,0)` is collected and the soul at `(1.6,0,0)` is not. -/
theorem C3_collision_iff_distance :
    (∀ (playerPos : Vec3) (skullRadius : ℚ) (souls : List Soul) (s : Soul),
        idsNodup souls → s ∈ souls → s.isCollected = false →
        skullRadius + Soul.collisionRadius ≤ 5 →
        (s.id ∈ (CollisionDetector.checkCollisionsOptimized playerPos skullRadius
              souls).collectedSouls ↔
          distanceTo playerPos s.position ≤
            ((skullRadius + Soul.collisionRadius : ℚ) : ℝ))) ∧
      (∀ (playerPos : Vec3) (skullRadius : ℚ) (souls : List Soul) (s : Soul),
        idsNodup souls → s ∈ souls →
        (5 : ℝ) < distanceTo playerPos s.position →
        s.id ∉ (CollisionDetector.checkCollisionsOptimized playerPos skullRadius
          souls).collectedSouls) ∧
      (∀ (playerPos : Vec3) (souls : List Soul) (s : Soul),
        s ∈ souls → s.isCollected = false →
        distanceTo playerPos s.position ≤ (5 : ℝ) →
        s ∈ CollisionDetector.broadPhaseDetection playerPos souls) ∧
      (CollisionDetector.checkCollisionsOptimized ⟨0, 0, 0⟩ 1
          c3Souls).collectedSouls = [0] := by
  have hmem_of_collected :
      ∀ (playerPos : Vec3) (skullRadius : ℚ) (souls : List Soul) (s : Soul),
        idsNodup souls → s ∈ souls →
        s.id ∈ (CollisionDetector.checkCollisionsOptimized playerPos skullRadius
            souls).collectedSouls →
        s ∈ CollisionDetector.broadPhaseDetection playerPos souls ∧
          CollisionDetector.narrowTest playerPos skullRadius s = true := by
    intro playerPos skullRadius souls s hN hmem hin
    rw [(CollisionDetector.checkCollisionsOptimized_collected playerPos
        skullRadius hN).1] at hin
    obtain ⟨c, hc, hcid⟩ := List.mem_map.mp hin
    obtain ⟨hcb, hcn⟩ := List.mem_filter.mp hc
    have hcsouls : c ∈ souls := (CollisionDetector.broadPhase_mem.mp hcb).1
    have hcs : c = s := eq_of_mem_of_id_eq hN hcsouls hmem hcid
    subst hcs
    exact ⟨hcb, hcn⟩
  refine ⟨?_, ?_, ?_, ?_⟩
  · intro playerPos skullRadius souls s hN hmem hfree hcfg
    constructor
    · intro hin
      obtain ⟨_, hnarrow⟩ :=
        hmem_of_collected playerPos skullRadius souls s hN hmem hin
      exact (distLe_eq_true_iff _ _ _).mp hnarrow
    · intro hdist
      have hnarrow : distLe playerPos s.position
          (skullRadius + Soul.collisionRadius) = true :=
        (distLe_eq_true_iff _ _ _).mpr hdist
      have hbroad : distLe playerPos s.position 5 = true :=
        distLe_mono hcfg hnarrow
      rw [(CollisionDetector.checkCollisionsOptimized_collected playerPos
          skullRadius hN).1]
      exact List.mem_map_of_mem Soul.id (List.mem_filter.mpr
        ⟨CollisionDetector.broadPhase_mem.mpr ⟨hmem, hfree, hbroad⟩, hnarrow⟩)
  · intro playerPos skullRadius souls s hN hmem hfar hin
    obtain ⟨hbroad, _⟩ :=
      hmem_of_collected playerPos skullRadius souls s hN hmem hin
    have h5 : distLe playerPos s.position 5 = true :=
      (CollisionDetector.broadPhase_mem.mp hbroad).2.2
    have := (distLe_eq_true_iff _ _ _).mp h5
    rw [show ((5 : ℚ) : ℝ) = (5 : ℝ) by norm_num] at this
    linarith
  · intro playerPos souls s hmem hfree hnear
    refine CollisionDetector.broadPhase_mem.mpr ⟨hmem, hfree, ?_⟩
    refine (distLe_eq_true_iff _ _ _).mpr ?_
    rw [show ((5 : ℚ) : ℝ) = (5 : ℝ) by norm_num]
    exact hnear
  · decide

/-- Witness for C3 at concrete inputs: the soul at `(1.4,0,0)` with the
avatar at the origin and radius `1`. -/
theorem C3_collision_iff_distance_witness :
    (0 ∈ (CollisionDetector.checkCollisionsOptimized ⟨0, 0, 0⟩ 1
        c3Souls).collectedSouls ↔
      distanceTo ⟨0, 0, 0⟩ ⟨7/5, 0, 0⟩ ≤ (((1 : ℚ) + Soul.collisionRadius : ℚ) : ℝ)) :=
  C3_collision_iff_distance.1 ⟨0, 0, 0⟩ 1 c3Souls
    { id := 0, position := ⟨7/5, 0, 0⟩, isCollected := false,
      collectionAnimation := 0 }
    (by decide) (by decide) rfl (by norm_num [Soul.collisionRadius])

/-! ### C7 -/

theorem countP_id_of_ids_nodup (l : List Soul)
    (h : (l.map Soul.id).Nodup) (i : ℕ) :
    l.countP (fun c => c.id = i) = if i ∈ l.map Soul.id then 1 else 0 := by
  induction l with
  | nil => simp
  | cons a t ih =>
      simp only [List.map_cons, List.nodup_cons] at h
      rw [List.countP_cons, ih h.2]
      by_cases ha : a.id = i
      · have hnot : i ∉ List.map Soul.id t := by
          rw [← ha]
          exact h.1
        simp [ha, hnot]
      · by_cases hi : i ∈ List.map Soul.id t
        · simp [ha, hi]
        · have ha2 : ¬ i = a.id := fun hEq => ha hEq.symm
          simp [ha, hi, ha2]

/-- C7: `collectSoul` on an unknown id returns `false` and changes nothing;
on an already-collecting soul it returns `false`, changes nothing (so the
decay is neither restarted nor altered) and contributes no collision event
in a resolver pass; the first call on an active Free soul returns `true`
(and an immediate second call returns `false` and leaves the registry as it
was), and such a soul yields exactly one collision event in a resolver pass
(`triggerCollisionCallbacks` then delivers that one event to every
registered callback). -/
theorem C7_collect_soul_idempotent :
    (∀ (souls : List Soul) (i : ℕ), souls.find? (fun t => t.id = i) = none →
        SoulManager.collectSoul souls i = (false, souls)) ∧
      (∀ (souls : List Soul) (s : Soul), idsNodup souls → s ∈ souls →
        s.isCollected = true →
        SoulManager.collectSoul souls s.id = (false, souls)) ∧
      (∀ (souls : List Soul) (s : Soul), idsNodup souls → s ∈ souls →
        s.isCollected = false →
        (SoulManager.collectSoul souls s.id).1 = true ∧
          SoulManager.collectSoul (SoulManager.collectSoul souls s.id).2 s.id =
            (false, (SoulManager.collectSoul souls s.id).2)) ∧
      ∀ (playerPos : Vec3) (skullRadius : ℚ) (souls : List Soul) (s : Soul),
        idsNodup souls → s ∈ souls →
        ((CollisionDetector.checkCollisionsOptimized playerPos skullRadius
              souls).events.countP (fun e => e.soulId = s.id) =
            if s.id ∈ (CollisionDetector.checkCollisionsOptimized playerPos
                skullRadius souls).collectedSouls then 1 else 0) ∧
          (s.isCollected = true →
            (CollisionDetector.checkCollisionsOptimized playerPos skullRadius
                souls).events.countP (fun e => e.soulId = s.id) = 0) := by
  have hmark : ∀ (souls : List Soul) (s : Soul), idsNodup souls → s ∈ souls →
      s.isCollected = false →
      SoulManager.collectSoul souls s.id =
        (true, souls.map (fun (t : Soul) =>
          if t.id = s.id then t.startCollection else t)) := by
    intro souls s hN hmem hfree
    exact SoulManager.collectSoul_of_free (find?_id_eq_some hN hmem) hfree
  refine ⟨?_, ?_, ?_, ?_⟩
  · intro souls i h
    exact SoulManager.collectSoul_of_find?_none h
  · intro souls s hN hmem hcol
    exact SoulManager.collectSoul_of_collected (find?_id_eq_some hN hmem) hcol
  · intro souls s hN hmem hfree
    have h1 := hmark souls s hN hmem hfree
    constructor
    · rw [h1]
    · rw [h1]
      dsimp only
      have hfind2 : (souls.map (fun (t : Soul) =>
          if t.id = s.id then t.startCollection else t)).find?
            (fun t => t.id = s.id) = some s.startCollection := by
        rw [List.find?_map]
        have hcomp : ((fun t => decide (t.id = s.id)) ∘
            fun (t : Soul) => if t.id = s.id then t.startCollection else t) =
              fun (t : Soul) => decide (t.id = s.id) := by
          funext t
          by_cases ht : t.id = s.id
          · simp [ht, Soul.startCollection_id]
          · simp [ht]
        rw [hcomp, find?_id_eq_some hN hmem]
        simp
      exact SoulManager.collectSoul_of_collected hfind2
        (Soul.startCollection_isCollected s)
  · intro playerPos skullRadius souls s hN hmem
    obtain ⟨hids, hevs⟩ :=
      CollisionDetector.checkCollisionsOptimized_collected playerPos
        skullRadius hN
    have hnodup :
        (((CollisionDetector.broadPhaseDetection playerPos souls).filter
            (CollisionDetector.narrowTest playerPos skullRadius)).map
          Soul.id).Nodup :=
      List.Nodup.sublist
        (List.Sublist.map Soul.id (List.filter_sublist _))
        (CollisionDetector.broadPhase_ids_nodup playerPos hN)
    have hcount :
        (CollisionDetector.checkCollisionsOptimized playerPos skullRadius
            souls).events.countP (fun e => e.soulId = s.id) =
          if s.id ∈ (CollisionDetector.checkCollisionsOptimized playerPos
              skullRadius souls).collectedSouls then 1 else 0 := by
      have hcomp2 : ((fun (e : CollisionEvent) => decide (e.soulId = s.id)) ∘
          fun (c : Soul) => (⟨c.id, playerPos, c.position⟩ : CollisionEvent)) =
            fun (c : Soul) => decide (c.id = s.id) := rfl
      rw [hids, hevs, List.countP_map, hcomp2,
        countP_id_of_ids_nodup _ hnodup s.id]
    refine ⟨hcount, ?_⟩
    intro hcol
    rw [hcount]
    have hnotin : s.id ∉ (CollisionDetector.checkCollisionsOptimized playerPos
        skullRadius souls).collectedSouls := by
      intro hin
      rw [hids] at hin
      obtain ⟨c, hc, hcid⟩ := List.mem_map.mp hin
      obtain ⟨hcb, _⟩ := List.mem_filter.mp hc
      obtain ⟨hcsouls, hcfree, _⟩ := CollisionDetector.broadPhase_mem.mp hcb
      have hcs : c = s := eq_of_mem_of_id_eq hN hcsouls hmem hcid
      rw [hcs, hcol] at hcfree
      cases hcfree
    rw [if_neg hnotin]

/-- Witness for C7 at concrete inputs: first and second `collectSoul` calls
on soul `0` of the two-soul registry. -/
theorem C7_collect_soul_idempotent_witness :
    ((SoulManager.collectSoul c3Souls 0).1 = true ∧
        SoulManager.collectSoul (SoulManager.collectSoul c3Souls 0).2 0 =
          (false, (SoulManager.collectSoul c3Souls 0).2)) ∧
      (CollisionDetector.checkCollisionsOptimized ⟨0, 0, 0⟩ 1
          c3Souls).events.countP (fun e => e.soulId = 0) =
        if 0 ∈ (CollisionDetector.checkCollisionsOptimized ⟨0, 0, 0⟩ 1
            c3Souls).collectedSouls then 1 else 0 :=
  ⟨C7_collect_soul_idempotent.2.2.1 c3Souls
      { id := 0, position := ⟨7/5, 0, 0⟩, isCollected := false,
        collectionAnimation := 0 } (by decide) (by decide) rfl,
    (C7_collect_soul_idempotent.2.2.2 ⟨0, 0, 0⟩ 1 c3Souls
      { id := 0, position := ⟨7/5, 0, 0⟩, isCollected := false,
        collectionAnimation := 0 } (by decide) (by decide)).1⟩

/-! ### Engine lemmas for C2 and C5 -/

namespace GameEngine

theorem handleSoulCollection_fields (g : GameState) (e : CollisionEvent) :
    (handleSoulCollection g e).currentState = g.currentState ∧
      (handleSoulCollection g e).timeRemaining = g.timeRemaining ∧
      (handleSoulCollection g e).gameTime = g.gameTime ∧
      (handleSoulCollection g e).duration = g.duration ∧
      (handleSoulCollection g e).endGameCount = g.endGameCount := by
  unfold handleSoulCollection
  split_ifs
  all_goals exact ⟨rfl, rfl, rfl, rfl, rfl⟩

theorem foldl_handle_fields (l : List CollisionEvent) :
    ∀ g : GameState,
      ((l.foldl handleSoulCollection g).currentState = g.currentState ∧
        (l.foldl handleSoulCollection g).timeRemaining = g.timeRemaining) ∧
      (l.foldl handleSoulCollection g).gameTime = g.gameTime ∧
      (l.foldl handleSoulCollection g).duration = g.duration ∧
      (l.foldl handleSoulCollection g).endGameCount = g.endGameCount := by
  induction l with
  | nil => intro g; exact ⟨⟨rfl, rfl⟩, rfl, rfl, rfl⟩
  | cons e l ih =>
      intro g
      simp only [List.foldl_cons]
      obtain ⟨⟨h1, h2⟩, h3, h4, h5⟩ := ih (handleSoulCollection g e)
      obtain ⟨k1, k2, k3, k4, k5⟩ := handleSoulCollection_fields g e
      exact ⟨⟨h1.trans k1, h2.trans k2⟩, h3.trans k3, h4.trans k4, h5.trans k5⟩

theorem foldl_handle_score_playing (l : List CollisionEvent) :
    ∀ g : GameState, g.currentState = GamePhase.playing →
      (l.foldl handleSoulCollection g).score = g.score + l.length := by
  induction l with
  | nil => intro g _; rfl
  | cons e l ih =>
      intro g h
      simp only [List.foldl_cons]
      have hstep : handleSoulCollection g e =
          { g with score := g.score + 1 } := by
        unfold handleSoulCollection
        rw [if_pos h]
      rw [hstep, ih _ (by rw [← hstep]; exact (handleSoulCollection_fields g e).1.trans h)]
      simp only [List.length_cons]
      omega

theorem foldl_handle_score_mono (l : List CollisionEvent) :
    ∀ g : GameState, g.score ≤ (l.foldl handleSoulCollection g).score := by
  induction l with
  | nil => intro g; exact le_refl _
  | cons e l ih =>
      intro g
      simp only [List.foldl_cons]
      refine le_trans ?_ (ih (handleSoulCollection g e))
      unfold handleSoulCollection
      split_ifs
      · exact Nat.le_succ _
      · exact le_refl _

theorem changeState_fields (g : GameState) (s : GamePhase) :
    (changeState g s).currentState = s ∧
      (changeState g s).timeRemaining = g.timeRemaining ∧
      (changeState g s).gameTime = g.gameTime ∧
      (changeState g s).duration = g.duration ∧
      (changeState g s).score = g.score ∧
      (changeState g s).endGameCount = g.endGameCount := by
  unfold changeState
  split_ifs with h
  · exact ⟨h, rfl, rfl, rfl, rfl, rfl⟩
  · cases s
    all_goals exact ⟨rfl, rfl, rfl, rfl, rfl, rfl⟩

theorem endGame_fields (g : GameState) :
    (endGame g).currentState = GamePhase.gameOver ∧
      (endGame g).timeRemaining = g.timeRemaining ∧
      (endGame g).gameTime = g.gameTime ∧
      (endGame g).duration = g.duration ∧
      (endGame g).score = g.score ∧
      (endGame g).endGameCount = g.endGameCount + 1 := by
  obtain ⟨h1, h2, h3, h4, h5, h6⟩ := changeState_fields g GamePhase.gameOver
  unfold endGame
  dsimp only
  exact ⟨h1, h2, h3, h4, h5, by rw [h6]⟩

theorem startGame_endGameCount (g : GameState) :
    (startGame g).endGameCount = g.endGameCount := by
  have h := (changeState_fields g GamePhase.playing).2.2.2.2.2
  unfold startGame
  dsimp only
  exact h

theorem updateGameOverState_fields (g : GameState) (dt : ℚ) (f : Frame) :
    (updateGameOverState g dt f).endGameCount = g.endGameCount ∧
      (f.restartPressed = false →
        (updateGameOverState g dt f).currentState = g.currentState) := by
  unfold updateGameOverState
  dsimp only
  split_ifs with hr
  · constructor
    · exact startGame_endGameCount _
    · intro hfr
      rw [hfr] at hr
      cases hr
  · exact ⟨rfl, fun _ => rfl⟩

/-- The list of soul ids the resolver collects during one Playing-phase frame
(`checkCollisionsOptimized`'s return value in `updatePlayingState`, lines
624-635): empty when the timer expired this frame. -/
def collectedThisFrame (g : GameState) (dt : ℚ) (f : Frame) : List ℕ :=
  if max 0 (g.duration - (g.gameTime + dt)) ≤ 0 then []
  else
    (CollisionDetector.checkCollisionsOptimized f.playerPos g.skullRadius
      ((g.soulManager.update dt f.spawnPos f.posOracle).activeSouls)).collectedSouls

theorem narrowPhase_events_length (playerPos : Vec3) (skullRadius : ℚ) :
    ∀ (cands souls : List Soul),
      (CollisionDetector.narrowPhase playerPos skullRadius cands souls).events.length =
        (CollisionDetector.narrowPhase playerPos skullRadius cands
          souls).collectedSouls.length := by
  intro cands
  induction cands with
  | nil => intro souls; rfl
  | cons c cs ih =>
      intro souls
      unfold CollisionDetector.narrowPhase
      split_ifs with h
      · rcases hres : SoulManager.collectSoul souls c.id with ⟨b, souls2⟩
        cases b
        · dsimp only
          exact ih souls2
        · dsimp only
          simp only [List.length_cons]
          rw [ih souls2]
      · exact ih souls

theorem checkCollisions_events_length (playerPos : Vec3) (skullRadius : ℚ)
    (souls : List Soul) :
    (CollisionDetector.checkCollisionsOptimized playerPos skullRadius
        souls).events.length =
      (CollisionDetector.checkCollisionsOptimized playerPos skullRadius
        souls).collectedSouls.length := by
  rw [CollisionDetector.checkCollisionsOptimized_eq]
  exact narrowPhase_events_length playerPos skullRadius _ souls

end GameEngine

namespace GameEngine

/-- One Playing-phase frame, characterized field by field: the clock always
advances by `dt` and `timeRemaining` is recomputed as
`max 0 (duration - elapsed)`; when the accumulated time reaches the duration
the frame ends the game (phase `gameOver`, one game-ended hand-off, score
untouched); otherwise the phase is unchanged, no game-ended hand-off fires,
and the score grows by exactly the collected-soul count. -/
theorem updatePlaying_step (g : GameState) (dt : ℚ) (f : Frame) :
    (updatePlayingState g dt f).gameTime = g.gameTime + dt ∧
      (updatePlayingState g dt f).timeRemaining =
        max 0 (g.duration - (g.gameTime + dt)) ∧
      (updatePlayingState g dt f).duration = g.duration ∧
      (g.duration ≤ g.gameTime + dt →
        (updatePlayingState g dt f).currentState = GamePhase.gameOver ∧
          (updatePlayingState g dt f).endGameCount = g.endGameCount + 1 ∧
          (updatePlayingState g dt f).score = g.score) ∧
      (g.gameTime + dt < g.duration →
        (updatePlayingState g dt f).currentState = g.currentState ∧
          (updatePlayingState g dt f).endGameCount = g.endGameCount ∧
          (g.currentState = GamePhase.playing →
            (updatePlayingState g dt f).score =
              g.score + (collectedThisFrame g dt f).length)) ∧
      g.score ≤ (updatePlayingState g dt f).score := by
  unfold updatePlayingState
  dsimp only
  rcases le_or_lt g.duration (g.gameTime + dt) with hdur | hdur
  · have hcond : max 0 (g.duration - (g.gameTime + dt)) ≤ 0 :=
      max_le (le_refl 0) (by linarith)
    rw [if_pos hcond]
    obtain ⟨e1, e2, e3, e4, e5, e6⟩ := endGame_fields
      { g with
          gameTime := g.gameTime + dt
          timeRemaining := max 0 (g.duration - (g.gameTime + dt)) }
    refine ⟨by rw [e3], by rw [e2], by rw [e4], ?_, ?_, by rw [e5]⟩
    · intro _
      exact ⟨e1, by rw [e6], by rw [e5]⟩
    · intro hlt
      exact absurd hdur (not_le.mpr hlt)
  · have hpos : 0 < max 0 (g.duration - (g.gameTime + dt)) :=
      lt_of_lt_of_le (by linarith) (le_max_right _ _)
    rw [if_neg (not_le.mpr hpos)]
    set base : GameState :=
      { g with
          gameTime := g.gameTime + dt
          timeRemaining := max 0 (g.duration - (g.gameTime + dt))
          playerPos := f.playerPos
          soulManager :=
            { g.soulManager.update dt f.spawnPos f.posOracle with
                activeSouls :=
                  (CollisionDetector.checkCollisionsOptimized f.playerPos
                    g.skullRadius
                    ((g.soulManager.update dt f.spawnPos
                      f.posOracle).activeSouls)).souls } } with hbase
    set evs : List CollisionEvent :=
      (CollisionDetector.checkCollisionsOptimized f.playerPos g.skullRadius
        ((g.soulManager.update dt f.spawnPos f.posOracle).activeSouls)).events
      with hevs
    obtain ⟨⟨f1, f2⟩, f3, f4, f5⟩ := foldl_handle_fields evs base
    refine ⟨by rw [f3], by rw [f2], by rw [f4], ?_, ?_, ?_⟩
    · intro hle
      exact absurd hle (not_le.mpr hdur)
    · intro _
      refine ⟨by rw [f1], by rw [f5], ?_⟩
      intro hplay
      have hbasest : base.currentState = GamePhase.playing := hplay
      rw [foldl_handle_score_playing evs base hbasest]
      have hlen : evs.length = (collectedThisFrame g dt f).length := by
        unfold collectedThisFrame
        rw [if_neg (not_le.mpr hpos), hevs,
          checkCollisions_events_length]
      rw [hlen]
    · exact foldl_handle_score_mono evs base

theorem update_playing_eq (g : GameState) (dt : ℚ) (f : Frame)
    (h : g.currentState = GamePhase.playing) :
    update g dt f = updatePlayingState g dt f := by
  unfold update
  rw [h]

theorem update_gameOver_eq (g : GameState) (dt : ℚ) (f : Frame)
    (h : g.currentState = GamePhase.gameOver) :
    update g dt f = updateGameOverState g dt f := by
  unfold update
  rw [h]

theorem run_cons (g : GameState) (p : ℚ × Frame) (ps : List (ℚ × Frame)) :
    run g (p :: ps) = run (update g p.1 p.2) ps :=
  rfl

/-- Once the phase is GameOver and no restart is pressed, every further
frame stays in GameOver and never fires the game-ended hand-off again. -/
theorem run_gameOver_stable (frames : List (ℚ × Frame)) :
    ∀ g : GameState, g.currentState = GamePhase.gameOver →
      (∀ p ∈ frames, p.2.restartPressed = false) →
      (run g frames).currentState = GamePhase.gameOver ∧
        (run g frames).endGameCount = g.endGameCount := by
  induction frames with
  | nil => exact fun g h _ => ⟨h, rfl⟩
  | cons p ps ih =>
      intro g h hr
      rw [run_cons]
      have hstep := update_gameOver_eq g p.1 p.2 h
      obtain ⟨hc, hs⟩ := updateGameOverState_fields g p.1 p.2
      have hrp : p.2.restartPressed = false := (hr p (List.mem_cons_self p ps))
      have hgo : (update g p.1 p.2).currentState = GamePhase.gameOver := by
        rw [hstep, hs hrp, h]
      obtain ⟨r1, r2⟩ := ih (update g p.1 p.2) hgo
        (fun q hq => hr q (List.mem_cons_of_mem p hq))
      refine ⟨r1, ?_⟩
      rw [r2, hstep, hc]

/-- A Playing run whose frame deltas are nonnegative, contain no restart and
sum past the remaining duration ends in GameOver having fired the game-ended
hand-off exactly once. -/
theorem run_reaches_gameOver (frames : List (ℚ × Frame)) :
    ∀ g : GameState, g.currentState = GamePhase.playing →
      g.gameTime < g.duration →
      (∀ p ∈ frames, 0 ≤ p.1 ∧ p.2.restartPressed = false) →
      g.duration ≤ g.gameTime + (frames.map Prod.fst).sum →
      (run g frames).currentState = GamePhase.gameOver ∧
        (run g frames).endGameCount = g.endGameCount + 1 := by
  induction frames with
  | nil =>
      intro g hp hlt _ hsum
      simp only [List.map_nil, List.sum_nil, add_zero] at hsum
      exact absurd hsum (not_le.mpr hlt)
  | cons p ps ih =>
      intro g hp hlt hfr hsum
      rw [run_cons]
      have hstep := update_playing_eq g p.1 p.2 hp
      obtain ⟨u1, u2, u3, u4, u5, _⟩ := updatePlaying_step g p.1 p.2
      rcases le_or_lt g.duration (g.gameTime + p.1) with hd | hd
      · obtain ⟨t1, t2, _⟩ := u4 hd
        have hgo : (update g p.1 p.2).currentState = GamePhase.gameOver := by
          rw [hstep]
          exact t1
        obtain ⟨r1, r2⟩ := run_gameOver_stable ps (update g p.1 p.2) hgo
          (fun q hq => (hfr q (List.mem_cons_of_mem p hq)).2)
        refine ⟨r1, ?_⟩
        rw [r2, hstep, t2]
      · obtain ⟨s1, s2, _⟩ := u5 hd
        have hp2 : (update g p.1 p.2).currentState = GamePhase.playing := by
          rw [hstep, s1, hp]
        have hlt2 : (update g p.1 p.2).gameTime < (update g p.1 p.2).duration := by
          rw [hstep, u1, u3]
          exact hd
        have hsum2 : (update g p.1 p.2).duration ≤
            (update g p.1 p.2).gameTime + (ps.map Prod.fst).sum := by
          rw [hstep, u1, u3]
          simp only [List.map_cons, List.sum_cons] at hsum
          linarith
        obtain ⟨r1, r2⟩ := ih (update g p.1 p.2) hp2 hlt2
          (fun q hq => hfr q (List.mem_cons_of_mem p hq)) hsum2
        refine ⟨r1, ?_⟩
        rw [r2, hstep, s2]

end GameEngine

/-- A concrete engine state used by witnesses: Playing, `duration = 30`,
`elapsed = 29`, fresh registry, avatar far from every soul. -/
def demoGame : GameState :=
  { currentState := GamePhase.playing
    previousState := none
    score := 0
    gameTime := 29
    timeRemaining := 1
    duration := 30
    spawnRateCfg := 3/2
    skullRadius := 6/5
    playerPos := ⟨100, 0, 0⟩
    playerStart := ⟨0, 0, 0⟩
    soulManager := SoulManager.mk0
    endGameCount := 0 }

/-- A concrete frame input used by witnesses: no input, no restart. -/
def demoFrame : Frame :=
  { inputX := 0
    inputZ := 0
    restartPressed := false
    playerPos := ⟨100, 0, 0⟩
    spawnPos := ⟨0, 2, 0⟩
    posOracle := fun _ => ⟨0, 2, 0⟩ }

/-! ### C2 -/

/-- C2: during Playing, every engine update leaves
`timeRemaining = max 0 (duration - elapsed)` (hence never negative), and
`timeRemaining` is non-increasing across updates with `dt ≥ 0` from any state
satisfying the Playing invariant; the update that brings the elapsed time to
the configured duration transitions the phase to GameOver and fires the
game-ended hand-off once; updates in the GameOver phase never fire it again
(and, absent a restart, stay in GameOver); and any Playing run whose
nonnegative deltas sum to at least the remaining duration (e.g. `duration=30`
and updates summing to `elapsed=30.0`) ends in GameOver with the hand-off
fired exactly once. -/
theorem C2_timer_monotone_gameover_once :
    (∀ (g : GameState) (dt : ℚ) (f : Frame),
        g.currentState = GamePhase.playing →
        (GameEngine.update g dt f).gameTime = g.gameTime + dt ∧
          (GameEngine.update g dt f).timeRemaining =
            max 0 (g.duration - (g.gameTime + dt)) ∧
          0 ≤ (GameEngine.update g dt f).timeRemaining) ∧
      (∀ (g : GameState) (dt : ℚ) (f : Frame),
        g.currentState = GamePhase.playing → 0 ≤ dt →
        g.timeRemaining = max 0 (g.duration - g.gameTime) →
        (GameEngine.update g dt f).timeRemaining ≤ g.timeRemaining) ∧
      (∀ (g : GameState) (dt : ℚ) (f : Frame),
        g.currentState = GamePhase.playing → g.duration ≤ g.gameTime + dt →
        (GameEngine.update g dt f).currentState = GamePhase.gameOver ∧
          (GameEngine.update g dt f).endGameCount = g.endGameCount + 1) ∧
      (∀ (g : GameState) (dt : ℚ) (f : Frame),
        g.currentState = GamePhase.gameOver →
        (GameEngine.update g dt f).endGameCount = g.endGameCount ∧
          (f.restartPressed = false →
            (GameEngine.update g dt f).currentState = GamePhase.gameOver)) ∧
      ∀ (g : GameState) (frames : List (ℚ × Frame)),
        g.currentState = GamePhase.playing → g.gameTime < g.duration →
        (∀ p ∈ frames, 0 ≤ p.1 ∧ p.2.restartPressed = false) →
        g.duration ≤ g.gameTime + (frames.map Prod.fst).sum →
        (GameEngine.run g frames).currentState = GamePhase.gameOver ∧
          (GameEngine.run g frames).endGameCount = g.endGameCount + 1 := by
  refine ⟨?_, ?_, ?_, ?_, ?_⟩
  · intro g dt f h
    rw [GameEngine.update_playing_eq g dt f h]
    obtain ⟨u1, u2, _, _, _, _⟩ := GameEngine.updatePlaying_step g dt f
    refine ⟨u1, u2, ?_⟩
    rw [u2]
    exact le_max_left _ _
  · intro g dt f h hdt htr
    rw [GameEngine.update_playing_eq g dt f h]
    obtain ⟨_, u2, _, _, _, _⟩ := GameEngine.updatePlaying_step g dt f
    rw [u2, htr]
    exact max_le_max (le_refl 0) (by linarith)
  · intro g dt f h hd
    rw [GameEngine.update_playing_eq g dt f h]
    obtain ⟨_, _, _, u4, _, _⟩ := GameEngine.updatePlaying_step g dt f
    exact ⟨(u4 hd).1, (u4 hd).2.1⟩
  · intro g dt f h
    rw [GameEngine.update_gameOver_eq g dt f h]
    obtain ⟨hc, hs⟩ := GameEngine.updateGameOverState_fields g dt f
    exact ⟨hc, fun hr => by rw [hs hr, h]⟩
  · intro g frames h hlt hfr hsum
    exact GameEngine.run_reaches_gameOver frames g h hlt hfr hsum

/-- Witness for C2 at concrete inputs: `duration = 30`, `elapsed = 29`, one
frame of `dt = 1` (deltas sum to the full duration). -/
theorem C2_timer_monotone_gameover_once_witness :
    (GameEngine.run demoGame [(1, demoFrame)]).currentState =
        GamePhase.gameOver ∧
      (GameEngine.run demoGame [(1, demoFrame)]).endGameCount =
        demoGame.endGameCount + 1 :=
  C2_timer_monotone_gameover_once.2.2.2.2 demoGame [(1, demoFrame)] rfl
    (by norm_num [demoGame]) (by
      intro p hp
      simp only [List.mem_singleton] at hp
      subst hp
      exact ⟨by norm_num, rfl⟩)
    (by norm_num [demoGame])

/-! ### C5 -/

/-- C5: during a Playing-phase frame the score increases by exactly
`(number of souls collected that frame) × scorePerSoul` with the default
`scorePerSoul = 1` — one `incrementScore()` per successful `collectSoul`
delivered through the collision callback — and the score never decreases
while Playing. -/
theorem C5_score_accounting :
    ∀ (g : GameState) (dt : ℚ) (f : Frame),
      g.currentState = GamePhase.playing →
      (GameEngine.update g dt f).score =
          g.score + (GameEngine.collectedThisFrame g dt f).length * 1 ∧
        g.score ≤ (GameEngine.update g dt f).score := by
  intro g dt f h
  rw [GameEngine.update_playing_eq g dt f h]
  obtain ⟨_, _, _, u4, u5, u6⟩ := GameEngine.updatePlaying_step g dt f
  rcases le_or_lt g.duration (g.gameTime + dt) with hd | hd
  · obtain ⟨_, _, t3⟩ := u4 hd
    refine ⟨?_, u6⟩
    have hcoll : GameEngine.collectedThisFrame g dt f = [] := by
      unfold GameEngine.collectedThisFrame
      rw [if_pos (max_le (le_refl 0) (by linarith))]
    rw [t3, hcoll]
    simp
  · obtain ⟨_, _, s3⟩ := u5 hd
    refine ⟨?_, u6⟩
    rw [s3 h, Nat.mul_one]

/-- Witness for C5 at concrete inputs: one Playing frame of the demo game. -/
theorem C5_score_accounting_witness :
    (GameEngine.update demoGame (1/30) demoFrame).score =
        demoGame.score +
          (GameEngine.collectedThisFrame demoGame (1/30) demoFrame).length * 1 ∧
      demoGame.score ≤ (GameEngine.update demoGame (1/30) demoFrame).score :=
  C5_score_accounting demoGame (1/30) demoFrame rfl

end RatReducible

end Atrapa
